import Mathlib

/-!
Verification development for the BPC-BDS plagiarism-detection comparison engine.

The definitions below are a shallow embedding of the comparison core in
src/detection/abstract_scan.py, src/detection/java_scan.py,
src/detection/definitions.py and src/parallelization.py.

Modelling conventions:
* Python integers are modelled as Nat: every probability and weight the
  program constructs is nonnegative, and Python floor division // agrees
  with Nat division on nonnegative operands.
* Python object identity (the default == on entities) is modelled by an
  explicit id field on every entity; theorems about collections assume the
  ids in one collection are distinct, which mirrors distinct Python objects.
  (JavaType overrides __eq__, but JavaType values never occur as elements
  of a compared collection, so identity is the only equality exercised.)
* Recursion that Python expresses as while-loops or dynamic dispatch is
  expressed with an explicit fuel argument chosen large enough; fuel
  congruence lemmas show the fuel never runs out, so the fueled functions
  satisfy exactly the loop equations of the source.
* The iteration order of the Python sets self_unused_vals / other_unused_vals
  is modelled as insertion order; every report added while draining them is
  the identical Report(0, 10, ..), so the aggregate is order independent.
-/

namespace BDS

/-- Node kinds appearing in statement-block histograms. The Java AST node
classes and Python ast node classes relevant to node_translation_dict in
src/detection/definitions.py are listed explicitly; other node classes are
represented by the remaining constructors. -/
inductive NodeKind where
  | whileStatement
  | forStatement
  | switchStatementCase
  | ifStatement
  | asyncFunctionDef
  | functionDef
  | awaitExpr
  | callExpr
  | tryStatement
  | returnStatement
  | localVariableDeclaration
  deriving DecidableEq, Repr

/-- Embedding of node_translation_dict from src/detection/definitions.py:
WhileStatement maps to ForStatement, SwitchStatementCase to IfStatement,
AsyncFunctionDef to FunctionDef, Await to Call. All other kinds are absent
from the dictionary (dict.get returns None). -/
def node_translation_dict : NodeKind → Option NodeKind
  | .whileStatement => some .forStatement
  | .switchStatementCase => some .ifStatement
  | .asyncFunctionDef => some .functionDef
  | .awaitExpr => some .callExpr
  | _ => none

/-- Embedding of type_translation_dict from src/detection/definitions.py. -/
def type_translation_dict : String → Option String
  | "short" => some "Double"
  | "Short" => some "Double"
  | "int" => some "Double"
  | "Integer" => some "Double"
  | "long" => some "Double"
  | "Long" => some "Double"
  | "float" => some "Double"
  | "Float" => some "Double"
  | "boolean" => some "Boolean"
  | "char" => some "String"
  | "Character" => some "String"
  | "ArrayList" => some "List"
  | "LinkedList" => some "List"
  | "HashSet" => some "Set"
  | "TreeSet" => some "Set"
  | "HashMap" => some "Map"
  | "TreeMap" => some "Map"
  | "FloatProperty" => some "DoubleProperty"
  | "IntegerProperty" => some "DoubleProperty"
  | "LongProperty" => some "DoubleProperty"
  | _ => none

/-- Modelled from the spec: calculate_score_based_on_numbers is imported from
detection.utils by src/detection/abstract_scan.py but its definition is not
under src/. The spec (section 4.3) defines score(a, b) = 100 − 100·|a−b|/(a+b)
with score(0, 0) = 100; taking the integer floor, and using
(a+b) − |a−b| = 2·min(a,b), this is 200·min(a,b) div (a+b). -/
def calculate_score_based_on_numbers (a b : Nat) : Nat :=
  if a + b = 0 then 100 else 200 * min a b / (a + b)

/-- Classes of comparable entities; used to model Python
isinstance(x, type(y)) checks between the concrete leaf classes of the
entity model. -/
inductive EntityKind where
  | projectKind
  | fileKind
  | classKind
  | methodKind
  | parameterKind
  | variableKind
  | typeKind
  | modifierKind
  | statementBlockKind
  | notFoundKind
  deriving DecidableEq, Repr

/-- The Java entity model of src/detection/java_scan.py, restricted to the
fields read by the compare methods. Every constructor carries an id modelling
Python object identity. JavaType carries name (None or a string; Python has
two falsy values None and "", both covered by Option String together with the
empty string), the cached is_user_defined flag and the cached
non_user_defined_types list. JavaMethod carries the data of return_type,
arguments and the cached all_blocks. Fields not read by any compare method
(display names, packages, paths, method modifiers) are omitted. The
member_variables field models the JavaClass attribute named variables (that
word is reserved in Lean). -/
inductive JEnt where
  | javaModifier (id : Nat) (name : String)
  | javaType (id : Nat) (name : Option String) (is_user_defined : Bool)
      (non_user_defined_types : List JEnt)
  | javaVariable (id : Nat) (modifiers : List JEnt) (vtype : JEnt)
  | javaParameter (id : Nat) (ptype : JEnt)
  | javaStatementBlock (id : Nat) (parts : List (NodeKind × Nat))
  | javaMethod (id : Nat) (return_type : JEnt) (arguments : List JEnt)
      (all_blocks : List JEnt)
  | javaClass (id : Nat) (member_variables : List JEnt) (methods : List JEnt)
  | javaFile (id : Nat) (classes : List JEnt)
  | javaProject (id : Nat) (project_type : String) (files : List JEnt)
  | notFound

namespace JEnt

/-- Python object identity (all entity classes except JavaType use default
object equality; NotFound sentinels are never tested for identity). -/
def entId : JEnt → Nat
  | javaModifier i _ => i
  | javaType i _ _ _ => i
  | javaVariable i _ _ => i
  | javaParameter i _ => i
  | javaStatementBlock i _ => i
  | javaMethod i _ _ _ => i
  | javaClass i _ _ => i
  | javaFile i _ => i
  | javaProject i _ _ => i
  | notFound => 0

/-- Concrete class of an entity. -/
def kind : JEnt → EntityKind
  | javaModifier _ _ => .modifierKind
  | javaType _ _ _ _ => .typeKind
  | javaVariable _ _ _ => .variableKind
  | javaParameter _ _ => .parameterKind
  | javaStatementBlock _ _ => .statementBlockKind
  | javaMethod _ _ _ _ => .methodKind
  | javaClass _ _ _ => .classKind
  | javaFile _ _ => .fileKind
  | javaProject _ _ _ => .projectKind
  | notFound => .notFoundKind

/-- The visualise flag: set to True in the constructors of JavaMethod,
JavaClass, JavaFile and JavaProject, False (the ComparableEntity default)
everywhere else. -/
def visualise : JEnt → Bool
  | javaMethod _ _ _ _ => true
  | javaClass _ _ _ => true
  | javaFile _ _ => true
  | javaProject _ _ _ => true
  | _ => false

end JEnt

mutual

/-- Structural size of an entity; used as fuel for the recursive compare.
Every equation has the successor form so that the fueled functions reduce
definitionally on constructor arguments. -/
def entSize : JEnt → Nat
  | .javaModifier _ _ => 1
  | .javaType _ _ _ non => entSizeList non + 1
  | .javaVariable _ mods t => entSizeList mods + entSize t + 1
  | .javaParameter _ t => entSize t + 1
  | .javaStatementBlock _ _ => 1
  | .javaMethod _ rt args blocks =>
    entSize rt + entSizeList args + entSizeList blocks + 1
  | .javaClass _ vars meths => entSizeList vars + entSizeList meths + 1
  | .javaFile _ cls => entSizeList cls + 1
  | .javaProject _ _ fs => entSizeList fs + 1
  | .notFound => 1

/-- Structural size of a list of entities. -/
def entSizeList : List JEnt → Nat
  | [] => 0
  | e :: es => entSize e + entSizeList es

end

/-- Report from src/detection/abstract_scan.py: probability, weight, the two
entities compared, and the list of child reports. -/
inductive Report where
  | mk (probability : Nat) (weight : Nat) (first : JEnt) (second : JEnt)
      (child_reports : List Report)

namespace Report

def probability : Report → Nat
  | mk p _ _ _ _ => p

def weight : Report → Nat
  | mk _ w _ _ _ => w

def first : Report → JEnt
  | mk _ _ f _ _ => f

def second : Report → JEnt
  | mk _ _ _ s _ => s

def child_reports : Report → List Report
  | mk _ _ _ _ c => c

/-- Report.__lt__ from src/detection/abstract_scan.py: compare by
probability, ties broken by weight. Together with __eq__ on
(probability, weight), functools.total_ordering makes x > y equivalent to
lt y x for the lexicographic order used here. -/
def lt (a b : Report) : Bool :=
  if a.probability ≠ b.probability then a.probability < b.probability
  else a.weight < b.weight

/-- Report.__add__ from src/detection/abstract_scan.py, lines 46-66. The
local variable weight is the zero-guarded denominator; the constructed
report keeps the un-guarded sum as its weight and inherits first and second
from the left operand. Children: if the firsts or the seconds are instances
of the same class, concatenate both child lists, otherwise keep the left
children and append the right report itself when one of its entities is
visualisable. -/
def add (a b : Report) : Report :=
  let w := a.weight + b.weight
  let denom := if w = 0 then 1 else w
  let prob := (a.probability * a.weight + b.probability * b.weight) / denom
  let children :=
    if a.first.kind = b.first.kind ∨ a.second.kind = b.second.kind then
      a.child_reports ++ b.child_reports
    else if b.first.visualise || b.second.visualise then
      a.child_reports ++ [b]
    else
      a.child_reports
  Report.mk prob (a.weight + b.weight) a.first a.second children

end Report

/-- Python max over a nonempty list of reports: keep the current maximum,
replace it only when the next item is strictly greater (so the first
maximal element wins). -/
def firstMax (hd : Report) (tl : List Report) : Report :=
  tl.foldl (fun best x => if best.lt x then x else best) hd

/-- One while-loop pass of the greedy bijective assignment in
ComparableEntity.compare_parts (src/detection/abstract_scan.py, lines
118-130), with explicit fuel. While the matrix is nonempty: take the maximum
report, remove its first from the unused left elements and its second from
the unused right elements, drop every matrix entry sharing its first or its
second, and accumulate it with Report.__add__. Fuel at least
matrix.length + 1 never runs out, because each pass strictly shrinks the
matrix (the maximum itself is filtered away). -/
def greedyGo : Nat → List Report → List JEnt → List JEnt → Report →
    Report × List JEnt × List JEnt
  | 0, _, su, ou, acc => (acc, su, ou)
  | fuel + 1, matrix, su, ou, acc =>
    match matrix with
    | [] => (acc, su, ou)
    | m0 :: rest =>
      let m := firstMax m0 rest
      greedyGo fuel
        ((m0 :: rest).filter fun x =>
          !(m.second.entId == x.second.entId || m.first.entId == x.first.entId))
        (su.eraseP fun x => x.entId == m.first.entId)
        (ou.eraseP fun x => x.entId == m.second.entId)
        (acc.add m)

/-- The greedy assignment loop with sufficient fuel. -/
def greedy (matrix : List Report) (su ou : List JEnt) (acc : Report) :
    Report × List JEnt × List JEnt :=
  greedyGo (matrix.length + 1) matrix su ou acc

/-- The cross-comparison matrix built by the nested loops of compare_parts
(lines 113-117): for each left element, the reports against every right
element, in order. -/
def crossMatrix (cmp : JEnt → JEnt → Report) (l1 l2 : List JEnt) :
    List Report :=
  l1.flatMap fun s => l2.map fun o => cmp s o

/-- The list-attribute branch of ComparableEntity.compare_parts
(src/detection/abstract_scan.py, lines 98-134), parametrised by the element
comparison function cmp (modelling the dynamic dispatch self_val.compare)
and by the fast-scan size gate (the condition of lines 101-108, a function
of the two list lengths). If either list is empty, return a fresh zero
report. If fast scanning and the gate holds, return a weight-10 zero report.
Otherwise run the greedy assignment and then add a Report(0, 10, x, NotFound)
for every unmatched left element and Report(0, 10, NotFound, x) for every
unmatched right element. -/
def compare_parts (cmp : JEnt → JEnt → Report) (self other : JEnt)
    (l1 l2 : List JEnt) (fast_scan : Bool) (gate : Nat → Nat → Bool) :
    Report :=
  if l1.isEmpty || l2.isEmpty then Report.mk 0 0 self other []
  else if fast_scan && gate l1.length l2.length then
    Report.mk 0 10 self other []
  else
    let r := greedy (crossMatrix cmp l1 l2) l1 l2 (Report.mk 0 0 self other [])
    let afterSelf :=
      r.2.1.foldl (fun a u => a.add (Report.mk 0 10 u JEnt.notFound [])) r.1
    r.2.2.foldl (fun a u => a.add (Report.mk 0 10 JEnt.notFound u [])) afterSelf

/-- The single-entity branch of compare_parts (lines 135-136): a fresh zero
report combined with the comparison of the two attribute values. -/
def compare_parts_single (self other : JEnt) (sub : Report) : Report :=
  (Report.mk 0 0 self other []).add sub

/-- Dictionary lookup with default 0, modelling other.parts.get(node_type, 0)
on the insertion-ordered histogram. -/
def partsGet (parts : List (NodeKind × Nat)) (k : NodeKind) : Nat :=
  match parts.find? fun kv => kv.1 == k with
  | some kv => kv.2
  | none => 0

/-- AbstractStatementBlock.compare from src/detection/abstract_scan.py,
lines 156-186. Walk the left histogram in insertion order. For each kind:
if the other histogram has a nonzero count, add a weight-10 report scoring
the two counts; otherwise look the kind up in node_translation_dict, and if
a fallback kind exists and has a nonzero count add the halved score with
weight 10 (when the fallback exists but its count is zero, nothing is
added); only when no fallback entry exists add Report(0, 10, self, other).
This is the loop body of AbstractStatementBlock.compare. -/
def statementBlockStep (self other : JEnt)
    (otherParts : List (NodeKind × Nat)) (report : Report)
    (kv : NodeKind × Nat) : Report :=
  let self_occurrences := kv.2
  let other_occurrences := partsGet otherParts kv.1
  if other_occurrences > 0 then
    report.add (Report.mk
      (calculate_score_based_on_numbers self_occurrences other_occurrences)
      10 self other [])
  else
    match node_translation_dict kv.1 with
    | some backup_node_type =>
      let other_occurrences2 := partsGet otherParts backup_node_type
      if other_occurrences2 > 0 then
        report.add (Report.mk
          (calculate_score_based_on_numbers self_occurrences
            other_occurrences2 / 2)
          10 self other [])
      else report
    | none => report.add (Report.mk 0 10 self other [])

/-- AbstractStatementBlock.compare (src/detection/abstract_scan.py, lines
156-186): fold the loop body over the left histogram in insertion order,
starting from a fresh zero report. -/
def statementBlockCompare (self other : JEnt)
    (selfParts otherParts : List (NodeKind × Nat)) : Report :=
  selfParts.foldl (statementBlockStep self other otherParts)
    (Report.mk 0 0 self other [])

/-- The method_interface_threshold tunable. Its module detection.thresholds
is not under src/, but src/definitions.py line 32 (the in-repo revision of
the same configuration) sets it to 80. -/
def method_interface_threshold : Nat := 80

/-- Python truthiness of a JavaType name: None and the empty string are
falsy. -/
def pyFalsy : Option String → Bool
  | none => true
  | some s => s == ""

/-- The compatible_format computed in the JavaType constructor
(src/detection/java_scan.py, lines 52-55): None for a falsy name, otherwise
type_translation_dict.get(name). -/
def compatible_format : Option String → Option String
  | none => none
  | some s => if s == "" then none else type_translation_dict s

/-- The polymorphic compare dispatch of the entity model, with explicit fuel
(fuel at least sizeOf of the left entity never runs out). Each branch embeds
the compare method of the corresponding class in
src/detection/java_scan.py / abstract_scan.py:
* JavaModifier.compare (lines 34-38): name equality, 100/10 or 0/10.
* JavaType.compare (lines 67-87): the falsy-names, user-defined-mismatch,
  name/compatible-format cascade; two user-defined types descend through
  compare_parts on non_user_defined_types.
* JavaVariable.compare (lines 124-127): modifiers then type.
* JavaParameter.compare (lines 251-252): type only.
* JavaStatementBlock: AbstractStatementBlock.compare (abstract_scan 156-186).
* JavaMethod.compare (lines 297-302): return type, arguments, then the
  all_blocks descent guarded by not fast_scan or probability above
  method_interface_threshold.
* JavaClass.compare (lines 353-356): variables then methods.
* JavaFile.compare (lines 415-417): classes.
* JavaProject.compare body (line 563): java_files (the language guard lives
  in JavaProject_compare below; projects never occur inside compared
  collections).
* NotFound.compare (lines 254-255): always 0/10.
The final catch-all models the TypeError compare_parts raises on entities of
different classes; it is unreachable because compared collections are
homogeneous. -/
def compareGo : Nat → Bool → (Nat → Nat → Bool) → JEnt → JEnt → Report
  | 0, _, _, a, b => Report.mk 0 0 a b []
  | fuel + 1, fast_scan, gate, a, b =>
    let cmp := compareGo fuel fast_scan gate
    match a, b with
    | .javaModifier _ sname, .javaModifier _ oname =>
      if sname == oname then Report.mk 100 10 a b []
      else Report.mk 0 10 a b []
    | .javaType _ sname sud snon, .javaType _ oname oud onon =>
      if pyFalsy sname && pyFalsy oname then Report.mk 100 1 a b []
      else if sud != oud then Report.mk 0 10 a b []
      else if !sud then
        if sname == oname then Report.mk 100 10 a b []
        else if (compatible_format sname == oname
                  && !(oname == (none : Option String)))
            || (sname == compatible_format oname
                  && !(sname == (none : Option String))) then
          Report.mk 75 10 a b []
        else if !(compatible_format sname == (none : Option String))
            && compatible_format sname == compatible_format oname then
          Report.mk 50 10 a b []
        else Report.mk 0 10 a b []
      else compare_parts cmp a b snon onon fast_scan gate
    | .javaVariable _ smods stype, .javaVariable _ omods otype =>
      (compare_parts cmp a b smods omods fast_scan gate).add
        (compare_parts_single a b (cmp stype otype))
    | .javaParameter _ stype, .javaParameter _ otype =>
      compare_parts_single a b (cmp stype otype)
    | .javaStatementBlock _ sparts, .javaStatementBlock _ oparts =>
      statementBlockCompare a b sparts oparts
    | .javaMethod _ srt sargs sblocks, .javaMethod _ ort oargs oblocks =>
      let r2 := (compare_parts_single a b (cmp srt ort)).add
        (compare_parts cmp a b sargs oargs fast_scan gate)
      if !fast_scan || r2.probability > method_interface_threshold then
        r2.add (compare_parts cmp a b sblocks oblocks fast_scan gate)
      else r2
    | .javaClass _ svars smeths, .javaClass _ ovars ometh =>
      (compare_parts cmp a b svars ovars fast_scan gate).add
        (compare_parts cmp a b smeths ometh fast_scan gate)
    | .javaFile _ scls, .javaFile _ ocls =>
      compare_parts cmp a b scls ocls fast_scan gate
    | .javaProject _ _ sfiles, .javaProject _ _ ofiles =>
      compare_parts cmp a b sfiles ofiles fast_scan gate
    | .notFound, _ => Report.mk 0 10 a b []
    | _, _ => Report.mk 0 0 a b []

/-- Entity comparison with sufficient fuel. -/
def compare (a b : JEnt) (fast_scan : Bool) (gate : Nat → Nat → Bool) :
    Report :=
  compareGo (entSize a) fast_scan gate a b

/-- JavaProject.compare (src/detection/java_scan.py, lines 558-564): if the
project types differ return None (no report), otherwise compare the
java_files collections. -/
def JavaProject_compare (a b : JEnt) (fast_scan : Bool)
    (gate : Nat → Nat → Bool) : Option Report :=
  match a, b with
  | .javaProject _ t _, .javaProject _ t2 _ =>
    if t ≠ t2 then none else some (compare a b fast_scan gate)
  | _, _ => none

/-- Modelled from the spec: the fast-scan size gate of compare_parts
(src/detection/abstract_scan.py, lines 101-108) tests
1 − sqrt(|m − n| / (m + n)) < skip_attr_list_threshold. The module
detection.thresholds that defines skip_attr_list_threshold is not under
src/, so the threshold value t is a parameter here. For 1 − t ≥ 0 the test
is equivalent (squaring the nonnegative sides, and multiplying by m + n > 0;
the gate is only ever consulted for nonempty collections) to
|m − n| > (1 − t)^2 · (m + n); for t > 1 it always holds. -/
def skip_attr_gate (t : ℚ) (m n : Nat) : Bool :=
  if 1 < t then true
  else decide (((1 - t) ^ 2 * ((m : ℚ) + (n : ℚ))) < (Nat.dist m n : ℚ))

/-- A size gate that never skips; with any threshold t ≤ 1, skip_attr_gate
behaves like this on equal-sized collections. -/
def neverSkip : Nat → Nat → Bool := fun _ _ => false

/-- The method interface portion of JavaMethod.compare (lines 298-299): the
return-type comparison combined with the arguments comparison. Its
probability is the value the fast-scan guard of line 300 tests against
method_interface_threshold. -/
def methodInterface (gate : Nat → Nat → Bool) (a b : JEnt) : Report :=
  match a, b with
  | .javaMethod _ srt sargs _, .javaMethod _ ort oargs _ =>
    (compare_parts_single a b (compare srt ort false gate)).add
      (compare_parts (fun x y => compare x y false gate) a b sargs oargs
        false gate)
  | _, _ => Report.mk 0 0 a b []

/-- Immediate sub-entities of an entity (the comparable attributes). -/
def childEnts : JEnt → List JEnt
  | .javaModifier _ _ => []
  | .javaType _ _ _ non => non
  | .javaVariable _ mods t => mods ++ [t]
  | .javaParameter _ t => [t]
  | .javaStatementBlock _ _ => []
  | .javaMethod _ rt args blocks => rt :: (args ++ blocks)
  | .javaClass _ vars meths => vars ++ meths
  | .javaFile _ cls => cls
  | .javaProject _ _ fs => fs
  | .notFound => []

/-- All method entities contained in an entity tree (fueled). -/
def allMethodsGo : Nat → JEnt → List JEnt
  | 0, _ => []
  | fuel + 1, e =>
    (match e with
      | .javaMethod _ _ _ _ => [e]
      | _ => []) ++ (childEnts e).flatMap (allMethodsGo fuel)

/-- All method entities contained in an entity tree. -/
def allMethods (e : JEnt) : List JEnt :=
  allMethodsGo (entSize e) e

/-- Predicate (fueled): the report and every report in its child tree have
probability 100. -/
def tree100Go : Nat → Report → Bool
  | 0, _ => false
  | fuel + 1, .mk p _ _ _ cs => p == 100 && cs.all (tree100Go fuel)

mutual

/-- Structural size of a report tree; used as fuel for tree100. -/
def repSize : Report → Nat
  | .mk _ _ _ _ cs => repSizeList cs + 1

/-- Structural size of a list of reports. -/
def repSizeList : List Report → Nat
  | [] => 0
  | r :: rs => repSize r + repSizeList rs

end

/-- Predicate: the report and every report in its child tree have
probability 100. -/
def tree100 (r : Report) : Bool :=
  tree100Go (repSize r) r

/-- The second loop of _generate_comparisons (src/parallelization.py, lines
19-21): for idx, project in enumerate(projects[:-1]), pair it with every
later project. Recursively: the head is paired with every element of the
tail, then the tail is processed the same way, which enumerates exactly the
same pairs in the same order. -/
def genPairs {α : Type} : List α → List (α × α)
  | [] => []
  | p :: rest => (rest.map fun q => (p, q)) ++ genPairs rest

/-- The _generate_comparisons generator of src/parallelization.py, lines
15-21, dropping the fast_scan and queue components of the yielded tuples:
first every template paired with every project, then every ordered pair of
distinct projects with the first earlier in the list. -/
def generate_comparisons {α : Type} (projects template_projs : List α) :
    List (α × α) :=
  (template_projs.flatMap fun t => projects.map fun p => (t, p))
    ++ genPairs projects

/-! Basic facts about Report.add and the report ordering. -/

theorem Report.add_weight (a b : Report) :
    (a.add b).weight = a.weight + b.weight := rfl

theorem Report.add_first (a b : Report) : (a.add b).first = a.first := rfl

theorem Report.add_second (a b : Report) : (a.add b).second = a.second := rfl

theorem Report.add_probability (a b : Report) :
    (a.add b).probability =
      (a.probability * a.weight + b.probability * b.weight) /
        (if a.weight + b.weight = 0 then 1 else a.weight + b.weight) := rfl

theorem Report.add_child_reports (a b : Report) :
    (a.add b).child_reports =
      if a.first.kind = b.first.kind ∨ a.second.kind = b.second.kind then
        a.child_reports ++ b.child_reports
      else if b.first.visualise || b.second.visualise then
        a.child_reports ++ [b]
      else a.child_reports := rfl

theorem Report.lt_iff (a b : Report) :
    a.lt b = true ↔
      (a.probability < b.probability ∨
        (a.probability = b.probability ∧ a.weight < b.weight)) := by
  unfold Report.lt
  split_ifs with h <;> simp <;> omega

theorem Report.lt_false_iff (a b : Report) :
    a.lt b = false ↔
      (b.probability < a.probability ∨
        (b.probability = a.probability ∧ b.weight ≤ a.weight)) := by
  have h := Report.lt_iff a b
  rcases hb : a.lt b with _ | _ <;> simp [hb] at h ⊢ <;> omega

/-! Facts about firstMax: it belongs to the list and no element beats it. -/

theorem firstMax_mem (tl : List Report) (hd : Report) :
    firstMax hd tl ∈ hd :: tl := by
  induction tl generalizing hd with
  | nil => simp [firstMax]
  | cons y tl ih =>
    have e : firstMax hd (y :: tl) = firstMax (if hd.lt y then y else hd) tl :=
      rfl
    rw [e]
    rcases List.mem_cons.mp (ih (if hd.lt y then y else hd)) with h1 | h1
    · rw [h1]
      split_ifs
      · exact List.mem_cons_of_mem _ (List.mem_cons_self _ _)
      · exact List.mem_cons_self _ _
    · exact List.mem_cons_of_mem _ (List.mem_cons_of_mem _ h1)

theorem firstMax_cons (hd y : Report) (tl : List Report) :
    firstMax hd (y :: tl) =
      firstMax (if Report.lt hd y = true then y else hd) tl := rfl

theorem firstMax_maximal (tl : List Report) (hd : Report) :
    ∀ x ∈ hd :: tl, (firstMax hd tl).lt x = false := by
  induction tl generalizing hd with
  | nil =>
    intro x hx
    have hx2 : x = hd := by simpa using hx
    subst hx2
    show Report.lt x x = false
    rw [Report.lt_false_iff]
    omega
  | cons y tl ih =>
    intro x hx
    cases hy : Report.lt hd y with
    | true =>
      have e : firstMax hd (y :: tl) = firstMax y tl := by
        rw [firstMax_cons, hy]
        simp
      rw [e]
      rcases List.mem_cons.mp hx with h1 | h1
      · subst h1
        have h2 : (firstMax y tl).lt y = false :=
          ih y y (List.mem_cons_self _ _)
        rw [Report.lt_iff] at hy
        rw [Report.lt_false_iff] at h2 ⊢
        omega
      · exact ih y x h1
    | false =>
      have e : firstMax hd (y :: tl) = firstMax hd tl := by
        rw [firstMax_cons, hy]
        simp
      rw [e]
      rcases List.mem_cons.mp hx with h1 | h1
      · rw [h1]
        exact ih hd hd (List.mem_cons_self _ _)
      · rcases List.mem_cons.mp h1 with h2 | h2
        · subst h2
          have h3 : (firstMax hd tl).lt hd = false :=
            ih hd hd (List.mem_cons_self _ _)
          rw [Report.lt_false_iff] at hy h3 ⊢
          omega
        · exact ih hd x (List.mem_cons_of_mem _ h2)

/-! The greedy loop never exhausts its fuel, hence satisfies the loop
equations of the while-loop in compare_parts. -/

theorem length_filter_lt {α : Type} (p : α → Bool) (l : List α) (x : α)
    (hx : x ∈ l) (hpx : p x = false) : (l.filter p).length < l.length := by
  induction l with
  | nil => exact absurd hx (List.not_mem_nil x)
  | cons a l ih =>
    rcases List.mem_cons.mp hx with h1 | h1
    · subst h1
      rw [List.filter_cons, hpx]
      have := List.length_filter_le p l
      simpa using Nat.lt_succ_of_le this
    · rw [List.filter_cons]
      rcases h : p a with _ | _
      · simp only [Bool.false_eq_true, if_false]
        exact Nat.lt_succ_of_lt (ih h1)
      · simp only [if_true, List.length_cons]
        exact Nat.succ_lt_succ (ih h1)

theorem greedyGo_congr (n : Nat) :
    ∀ (n2 : Nat) (matrix : List Report) (su ou : List JEnt) (acc : Report),
      matrix.length < n → matrix.length < n2 →
      greedyGo n matrix su ou acc = greedyGo n2 matrix su ou acc := by
  induction n using Nat.strong_induction_on with
  | _ n ih =>
    intro n2 matrix su ou acc h h2
    match n, h with
    | Nat.succ k, _ =>
      match n2, h2 with
      | Nat.succ k2, _ =>
        cases matrix with
        | nil => rfl
        | cons m0 rest =>
          show greedyGo k _ _ _ _ = greedyGo k2 _ _ _ _
          have hm : ((m0 :: rest).filter fun x =>
              !((firstMax m0 rest).second.entId == x.second.entId
                || (firstMax m0 rest).first.entId == x.first.entId)).length
              < (m0 :: rest).length := by
            apply length_filter_lt _ _ (firstMax m0 rest) (firstMax_mem rest m0)
            simp
          apply ih k (Nat.lt_succ_self k)
          · omega
          · omega

theorem greedy_nil (su ou : List JEnt) (acc : Report) :
    greedy [] su ou acc = (acc, su, ou) := rfl

theorem greedy_cons (m0 : Report) (rest : List Report) (su ou : List JEnt)
    (acc : Report) :
    greedy (m0 :: rest) su ou acc =
      greedy ((m0 :: rest).filter fun x =>
          !((firstMax m0 rest).second.entId == x.second.entId
            || (firstMax m0 rest).first.entId == x.first.entId))
        (su.eraseP fun x => x.entId == (firstMax m0 rest).first.entId)
        (ou.eraseP fun x => x.entId == (firstMax m0 rest).second.entId)
        (acc.add (firstMax m0 rest)) := by
  have hm : ((m0 :: rest).filter fun x =>
      !((firstMax m0 rest).second.entId == x.second.entId
        || (firstMax m0 rest).first.entId == x.first.entId)).length
      < (m0 :: rest).length := by
    apply length_filter_lt _ _ (firstMax m0 rest) (firstMax_mem rest m0)
    simp
  show greedyGo (rest.length + 1) _ _ _ _ = _
  unfold greedy
  apply greedyGo_congr
  · simpa using hm
  · omega

/-! Structure of the cross-comparison matrix. -/

theorem crossMatrix_nil_left (cmp : JEnt → JEnt → Report) (l2 : List JEnt) :
    crossMatrix cmp [] l2 = [] := rfl

theorem crossMatrix_nil_right (cmp : JEnt → JEnt → Report) (l1 : List JEnt) :
    crossMatrix cmp l1 [] = [] := by
  simp [crossMatrix]

theorem crossMatrix_cons_cons (cmp : JEnt → JEnt → Report) (s o : JEnt)
    (l1 l2 : List JEnt) :
    crossMatrix cmp (s :: l1) (o :: l2) =
      cmp s o :: (l2.map (cmp s) ++ crossMatrix cmp l1 (o :: l2)) := by
  simp [crossMatrix]

theorem mem_crossMatrix {cmp : JEnt → JEnt → Report} {l1 l2 : List JEnt}
    {x : Report} :
    x ∈ crossMatrix cmp l1 l2 ↔ ∃ s ∈ l1, ∃ o ∈ l2, x = cmp s o := by
  simp [crossMatrix, eq_comm]

theorem crossMatrix_cons (cmp : JEnt → JEnt → Report) (s : JEnt)
    (l1 l2 : List JEnt) :
    crossMatrix cmp (s :: l1) l2 = l2.map (cmp s) ++ crossMatrix cmp l1 l2 := by
  simp [crossMatrix]

theorem crossMatrix_filter (cmp : JEnt → JEnt → Report) (l1 l2 : List JEnt)
    (s0 o0 : JEnt)
    (hfs : ∀ s ∈ l1, ∀ o ∈ l2, (cmp s o).first = s ∧ (cmp s o).second = o) :
    ((crossMatrix cmp l1 l2).filter fun x =>
        !(o0.entId == x.second.entId || s0.entId == x.first.entId)) =
      crossMatrix cmp (l1.filter fun s => !(s0.entId == s.entId))
        (l2.filter fun o => !(o0.entId == o.entId)) := by
  induction l1 with
  | nil => rfl
  | cons s l1 ih =>
    have hrow : ∀ o ∈ l2,
        (!(o0.entId == (cmp s o).second.entId
          || s0.entId == (cmp s o).first.entId)) =
          (!(o0.entId == o.entId || s0.entId == s.entId)) := by
      intro o ho
      have h := hfs s (List.mem_cons_self _ _) o ho
      simp only [h.1, h.2]
    have hl1 : ∀ s2 ∈ l1, ∀ o ∈ l2,
        (cmp s2 o).first = s2 ∧ (cmp s2 o).second = o := by
      intro s2 hs2 o ho
      exact hfs s2 (List.mem_cons_of_mem _ hs2) o ho
    rw [crossMatrix_cons, List.filter_append, List.filter_map, ih hl1]
    simp only [Function.comp_def]
    rw [List.filter_congr hrow]
    cases hss : (s0.entId == s.entId) with
    | true =>
      simp only [hss, Bool.or_true, Bool.not_true]
      rw [List.filter_false, List.map_nil, List.nil_append]
      have h2 : ((s :: l1).filter fun x => !(s0.entId == x.entId)) =
          l1.filter fun x => !(s0.entId == x.entId) := by
        rw [List.filter_cons, hss]
        simp
      rw [h2]
    | false =>
      simp only [hss, Bool.or_false]
      have h2 : ((s :: l1).filter fun x => !(s0.entId == x.entId)) =
          s :: l1.filter fun x => !(s0.entId == x.entId) := by
        rw [List.filter_cons, hss]
        simp
      rw [h2, crossMatrix_cons]

/-! Removing a matched element: set removal by identity agrees with
filtering by id when the ids are distinct. -/

theorem eraseP_eq_filter_ids (l : List JEnt) (s0 : JEnt)
    (hl : (l.map JEnt.entId).Nodup) (hs : s0 ∈ l) :
    (l.eraseP fun x => x.entId == s0.entId) =
      l.filter fun x => !(s0.entId == x.entId) := by
  induction l with
  | nil => rfl
  | cons a l ih =>
    cases ha : (a.entId == s0.entId) with
    | true =>
      have ha2 : a.entId = s0.entId := eq_of_beq ha
      have he : List.eraseP (fun x => x.entId == s0.entId) (a :: l) = l :=
        List.eraseP_cons_of_pos ha
      rw [he, List.filter_cons]
      have hs0a : (s0.entId == a.entId) = true := by
        rw [ha2]; exact beq_self_eq_true _
      rw [hs0a]
      simp only [Bool.not_true, Bool.false_eq_true, if_false]
      symm
      rw [List.filter_eq_self]
      intro x hx
      have hxne : x.entId ≠ s0.entId := by
        intro hcontra
        have : a.entId ∈ l.map JEnt.entId := by
          rw [ha2, ← hcontra]
          exact List.mem_map_of_mem _ hx
        exact (List.nodup_cons.mp hl).1 this
      simp only [Bool.not_eq_true', beq_eq_false_iff_ne, ne_eq]
      intro hcontra
      exact hxne hcontra.symm
    | false =>
      have hs0l : s0 ∈ l := by
        rcases List.mem_cons.mp hs with h1 | h1
        · rw [h1] at ha
          simp at ha
        · exact h1
      have he : List.eraseP (fun x => x.entId == s0.entId) (a :: l) =
          a :: List.eraseP (fun x => x.entId == s0.entId) l :=
        List.eraseP_cons_of_neg (by simp [ha])
      rw [he, List.filter_cons]
      have hs0a : (s0.entId == a.entId) = false := by
        rcases h : (s0.entId == a.entId) with _ | _
        · rfl
        · have h2 := eq_of_beq h
          rw [← h2] at ha
          simp at ha
      rw [hs0a]
      simp only [Bool.not_false, if_true]
      rw [ih (List.nodup_cons.mp hl).2 hs0l]

theorem filter_ids_length (l : List JEnt) (s0 : JEnt)
    (hl : (l.map JEnt.entId).Nodup) (hs : s0 ∈ l) :
    (l.filter fun x => !(s0.entId == x.entId)).length = l.length - 1 := by
  induction l with
  | nil => exact absurd hs (List.not_mem_nil s0)
  | cons a l ih =>
    rcases List.mem_cons.mp hs with h1 | h1
    · rw [List.filter_cons]
      have hs0a : (s0.entId == a.entId) = true := by
        rw [h1]; exact beq_self_eq_true _
      rw [hs0a]
      simp only [Bool.not_true, Bool.false_eq_true, if_false]
      have : (l.filter fun x => !(s0.entId == x.entId)) = l := by
        rw [List.filter_eq_self]
        intro x hx
        have hxne : x.entId ≠ s0.entId := by
          intro hcontra
          have : a.entId ∈ l.map JEnt.entId := by
            rw [← h1, ← hcontra]
            exact List.mem_map_of_mem _ hx
          exact (List.nodup_cons.mp hl).1 this
        simp only [Bool.not_eq_true', beq_eq_false_iff_ne, ne_eq]
        intro hcontra
        exact hxne hcontra.symm
      rw [this]
      simp
    · rw [List.filter_cons]
      have hs0a : (s0.entId == a.entId) = false := by
        rcases h : (s0.entId == a.entId) with _ | _
        · rfl
        · exfalso
          have h2 := eq_of_beq h
          have : a.entId ∈ l.map JEnt.entId := by
            rw [← h2]
            exact List.mem_map_of_mem _ h1
          exact (List.nodup_cons.mp hl).1 this
      rw [hs0a]
      simp only [Bool.not_false, if_true, List.length_cons]
      rw [ih (List.nodup_cons.mp hl).2 h1]
      have : 1 ≤ l.length := List.length_pos_of_mem h1
      omega

theorem filter_ids_nodup (l : List JEnt) (q : JEnt → Bool)
    (hl : (l.map JEnt.entId).Nodup) :
    ((l.filter q).map JEnt.entId).Nodup :=
  List.Nodup.sublist (List.Sublist.map _ (List.filter_sublist l)) hl

/-! Weight bookkeeping for folds of Report.add. -/

theorem foldl_add_weight (ms : List Report) (acc : Report) :
    (ms.foldl Report.add acc).weight = acc.weight + (ms.map Report.weight).sum := by
  induction ms generalizing acc with
  | nil => simp
  | cons m ms ih =>
    rw [List.foldl_cons, ih, Report.add_weight]
    simp
    omega

theorem foldl_selfPenalty_weight (l : List JEnt) (acc : Report) :
    (l.foldl (fun a u => a.add (Report.mk 0 10 u JEnt.notFound [])) acc).weight
      = acc.weight + 10 * l.length := by
  induction l generalizing acc with
  | nil => simp
  | cons u l ih =>
    rw [List.foldl_cons, ih, Report.add_weight]
    simp [Report.weight]
    omega

theorem foldl_otherPenalty_weight (l : List JEnt) (acc : Report) :
    (l.foldl (fun a u => a.add (Report.mk 0 10 JEnt.notFound u [])) acc).weight
      = acc.weight + 10 * l.length := by
  induction l generalizing acc with
  | nil => simp
  | cons u l ih =>
    rw [List.foldl_cons, ih, Report.add_weight]
    simp [Report.weight]
    omega

/-! Central characterization of the greedy bijective assignment over a
cross-comparison matrix: it commits exactly min(m, n) matched reports, all
taken from the matrix, the first of which is a maximum of the whole matrix,
and leaves exactly the surplus elements unmatched on each side. -/

theorem greedy_cross_spec (n : Nat) :
    ∀ (l1 l2 : List JEnt) (cmp : JEnt → JEnt → Report) (acc : Report),
      l1.length + l2.length ≤ n →
      (l1.map JEnt.entId).Nodup → (l2.map JEnt.entId).Nodup →
      (∀ s ∈ l1, ∀ o ∈ l2, (cmp s o).first = s ∧ (cmp s o).second = o) →
      ∃ ms su ou,
        greedy (crossMatrix cmp l1 l2) l1 l2 acc =
          (ms.foldl Report.add acc, su, ou) ∧
        ms.length = min l1.length l2.length ∧
        (∀ m ∈ ms, ∃ s ∈ l1, ∃ o ∈ l2, m = cmp s o) ∧
        su.length = l1.length - l2.length ∧
        ou.length = l2.length - l1.length ∧
        (ms = [] ∨ ∃ m0 ms2, ms = m0 :: ms2 ∧
          ∀ x ∈ crossMatrix cmp l1 l2, m0.lt x = false) := by
  induction n with
  | zero =>
    intro l1 l2 cmp acc hn h1 h2 hfs
    have he1 : l1 = [] := List.length_eq_zero.mp (by omega)
    have he2 : l2 = [] := List.length_eq_zero.mp (by omega)
    subst he1; subst he2
    exact ⟨[], [], [], rfl, rfl, by simp, by simp, by simp, Or.inl rfl⟩
  | succ n ih =>
    intro l1 l2 cmp acc hn h1 h2 hfs
    cases l1 with
    | nil =>
      refine ⟨[], [], l2, ?_, by simp, by simp, by simp, by simp, Or.inl rfl⟩
      rw [crossMatrix_nil_left]
      rfl
    | cons s l1t =>
      cases l2 with
      | nil =>
        refine ⟨[], s :: l1t, [], ?_, by simp, by simp, by simp, by simp,
          Or.inl rfl⟩
        rw [crossMatrix_nil_right]
        rfl
      | cons o l2t =>
        rw [crossMatrix_cons_cons]
        rw [greedy_cons]
        set matrix := cmp s o :: (l2t.map (cmp s)
          ++ crossMatrix cmp l1t (o :: l2t)) with hmatrix
        set m := firstMax (cmp s o) (l2t.map (cmp s)
          ++ crossMatrix cmp l1t (o :: l2t)) with hm
        have hmem : m ∈ matrix := firstMax_mem _ _
        have hmem2 : m ∈ crossMatrix cmp (s :: l1t) (o :: l2t) := by
          rw [crossMatrix_cons_cons]; exact hmem
        obtain ⟨s0, hs0, o0, ho0, hmeq⟩ := mem_crossMatrix.mp hmem2
        have hfs0 := hfs s0 hs0 o0 ho0
        have hmf : m.first = s0 := by rw [hmeq]; exact hfs0.1
        have hms : m.second = o0 := by rw [hmeq]; exact hfs0.2
        have hfilter : (matrix.filter fun x =>
            !(m.second.entId == x.second.entId
              || m.first.entId == x.first.entId)) =
            crossMatrix cmp ((s :: l1t).filter fun x => !(s0.entId == x.entId))
              ((o :: l2t).filter fun x => !(o0.entId == x.entId)) := by
          rw [hmf, hms, hmatrix, ← crossMatrix_cons_cons]
          exact crossMatrix_filter cmp (s :: l1t) (o :: l2t) s0 o0 hfs
        have herase1 : ((s :: l1t).eraseP fun x => x.entId == m.first.entId) =
            (s :: l1t).filter fun x => !(s0.entId == x.entId) := by
          rw [hmf]
          exact eraseP_eq_filter_ids _ _ h1 hs0
        have herase2 : ((o :: l2t).eraseP fun x => x.entId == m.second.entId) =
            (o :: l2t).filter fun x => !(o0.entId == x.entId) := by
          rw [hms]
          exact eraseP_eq_filter_ids _ _ h2 ho0
        rw [hfilter, herase1, herase2]
        set l1f := (s :: l1t).filter fun x => !(s0.entId == x.entId) with hl1f
        set l2f := (o :: l2t).filter fun x => !(o0.entId == x.entId) with hl2f
        have hlen1 : l1f.length = (s :: l1t).length - 1 :=
          filter_ids_length _ _ h1 hs0
        have hlen2 : l2f.length = (o :: l2t).length - 1 :=
          filter_ids_length _ _ h2 ho0
        have hsub1 : ∀ x ∈ l1f, x ∈ s :: l1t := by
          intro x hx; exact List.mem_of_mem_filter hx
        have hsub2 : ∀ x ∈ l2f, x ∈ o :: l2t := by
          intro x hx; exact List.mem_of_mem_filter hx
        obtain ⟨ms2, su, ou, hrec, hmslen, hmsmem, hsulen, hoalen, _⟩ :=
          ih l1f l2f cmp (acc.add m)
            (by
              rw [hlen1, hlen2]
              simp only [List.length_cons] at hn ⊢
              omega)
            (filter_ids_nodup _ _ h1) (filter_ids_nodup _ _ h2)
            (fun s2 hs2 o2 ho2 => hfs s2 (hsub1 s2 hs2) o2 (hsub2 o2 ho2))
        refine ⟨m :: ms2, su, ou, ?_, ?_, ?_, ?_, ?_, ?_⟩
        · rw [hrec]
          rw [List.foldl_cons]
        · simp only [List.length_cons]
          rw [hmslen]
          simp only [List.length_cons] at hlen1 hlen2
          rw [hlen1, hlen2]
          simp
          omega
        · intro x hx
          rcases List.mem_cons.mp hx with h3 | h3
          · exact ⟨s0, hs0, o0, ho0, by rw [h3, hmeq]⟩
          · obtain ⟨s2, hs2, o2, ho2, heq2⟩ := hmsmem x h3
            exact ⟨s2, hsub1 s2 hs2, o2, hsub2 o2 ho2, heq2⟩
        · rw [hsulen, hlen1, hlen2]
          simp only [List.length_cons]
          omega
        · rw [hoalen, hlen1, hlen2]
          simp only [List.length_cons]
          omega
        · refine Or.inr ⟨m, ms2, rfl, ?_⟩
          intro x hx
          exact firstMax_maximal _ _ x hx

/-! Size lemmas and fuel congruence: the fuel chosen in compare, tree100 and
allMethods never runs out, so those functions agree with the unfueled
recursion of the source. -/

theorem list_all_congr {α : Type} (l : List α) (f g : α → Bool)
    (h : ∀ x ∈ l, f x = g x) : l.all f = l.all g := by
  induction l with
  | nil => rfl
  | cons a l ih =>
    simp only [List.all_cons]
    rw [h a (List.mem_cons_self _ _), ih fun x hx => h x (List.mem_cons_of_mem _ hx)]

theorem entSize_pos (e : JEnt) : 1 ≤ entSize e := by
  cases e <;> simp [entSize]

theorem entSize_le_of_mem {e : JEnt} {l : List JEnt} (h : e ∈ l) :
    entSize e ≤ entSizeList l := by
  induction l with
  | nil => exact absurd h (List.not_mem_nil e)
  | cons a l ih =>
    rw [entSizeList]
    rcases List.mem_cons.mp h with h1 | h1
    · rw [h1]; omega
    · have := ih h1; omega

theorem repSize_le_of_mem {r : Report} {l : List Report} (h : r ∈ l) :
    repSize r ≤ repSizeList l := by
  induction l with
  | nil => exact absurd h (List.not_mem_nil r)
  | cons a l ih =>
    rw [repSizeList]
    rcases List.mem_cons.mp h with h1 | h1
    · rw [h1]; omega
    · have := ih h1; omega

theorem repSize_pos (r : Report) : 1 ≤ repSize r := by
  cases r; simp [repSize]

theorem crossMatrix_congr (cmp cmp2 : JEnt → JEnt → Report)
    (l1 l2 : List JEnt) (h : ∀ s ∈ l1, ∀ o ∈ l2, cmp s o = cmp2 s o) :
    crossMatrix cmp l1 l2 = crossMatrix cmp2 l1 l2 := by
  induction l1 with
  | nil => rfl
  | cons s l1 ih =>
    rw [crossMatrix_cons, crossMatrix_cons]
    rw [List.map_congr_left fun o ho => h s (List.mem_cons_self _ _) o ho]
    rw [ih fun s2 hs2 o ho => h s2 (List.mem_cons_of_mem _ hs2) o ho]

theorem compare_parts_congr (cmp cmp2 : JEnt → JEnt → Report)
    (self other : JEnt) (l1 l2 : List JEnt) (fast : Bool)
    (gate : Nat → Nat → Bool)
    (h : ∀ s ∈ l1, ∀ o ∈ l2, cmp s o = cmp2 s o) :
    compare_parts cmp self other l1 l2 fast gate =
      compare_parts cmp2 self other l1 l2 fast gate := by
  unfold compare_parts
  rw [crossMatrix_congr cmp cmp2 l1 l2 h]

theorem compareGo_congr (n : Nat) :
    ∀ (n2 : Nat) (fast : Bool) (gate : Nat → Nat → Bool) (a b : JEnt),
      entSize a ≤ n → entSize a ≤ n2 →
      compareGo n fast gate a b = compareGo n2 fast gate a b := by
  induction n using Nat.strong_induction_on with
  | _ n ih =>
    intro n2 fast gate a b h h2
    have hp := entSize_pos a
    have h3 : 1 ≤ n := le_trans hp h
    have h4 : 1 ≤ n2 := le_trans hp h2
    match n, h3, h with
    | Nat.succ k, _, hk =>
    match n2, h4, h2 with
    | Nat.succ k2, _, hk2 =>
    clear h3 h4
    have hih : ∀ (x : JEnt), entSize x ≤ k → entSize x ≤ k2 →
        ∀ y, compareGo k fast gate x y = compareGo k2 fast gate x y := by
      intro x hx hx2 y
      exact ih k (Nat.lt_succ_self k) k2 fast gate x y hx hx2
    cases a with
    | javaModifier i s => cases b <;> rfl
    | javaType i nm ud non =>
      cases b <;> try rfl
      case javaType i2 nm2 ud2 non2 =>
        have hsz : entSizeList non ≤ k ∧ entSizeList non ≤ k2 := by
          simp [entSize] at hk hk2; omega
        have hcp : compare_parts (compareGo k fast gate)
            (JEnt.javaType i nm ud non) (JEnt.javaType i2 nm2 ud2 non2)
            non non2 fast gate =
            compare_parts (compareGo k2 fast gate)
            (JEnt.javaType i nm ud non) (JEnt.javaType i2 nm2 ud2 non2)
            non non2 fast gate := by
          apply compare_parts_congr
          intro s hs o ho
          exact hih s (le_trans (entSize_le_of_mem hs) hsz.1)
            (le_trans (entSize_le_of_mem hs) hsz.2) o
        show (if _ then _ else _) = (if _ then _ else _)
        rw [hcp]
    | javaVariable i mods t =>
      cases b <;> try rfl
      case javaVariable i2 mods2 t2 =>
        have hsz : entSizeList mods ≤ k ∧ entSizeList mods ≤ k2
            ∧ entSize t ≤ k ∧ entSize t ≤ k2 := by
          simp [entSize] at hk hk2; omega
        have hcp : compare_parts (compareGo k fast gate)
            (JEnt.javaVariable i mods t) (JEnt.javaVariable i2 mods2 t2)
            mods mods2 fast gate =
            compare_parts (compareGo k2 fast gate)
            (JEnt.javaVariable i mods t) (JEnt.javaVariable i2 mods2 t2)
            mods mods2 fast gate := by
          apply compare_parts_congr
          intro s hs o ho
          exact hih s (le_trans (entSize_le_of_mem hs) hsz.1)
            (le_trans (entSize_le_of_mem hs) hsz.2.1) o
        have ht : compareGo k fast gate t t2 = compareGo k2 fast gate t t2 :=
          hih t hsz.2.2.1 hsz.2.2.2 t2
        show (compare_parts _ _ _ _ _ _ _).add _ =
          (compare_parts _ _ _ _ _ _ _).add _
        rw [hcp, ht]
    | javaParameter i t =>
      cases b <;> try rfl
      case javaParameter i2 t2 =>
        have hsz : entSize t ≤ k ∧ entSize t ≤ k2 := by
          simp [entSize] at hk hk2; omega
        have ht : compareGo k fast gate t t2 = compareGo k2 fast gate t t2 :=
          hih t hsz.1 hsz.2 t2
        show compare_parts_single _ _ _ = compare_parts_single _ _ _
        rw [ht]
    | javaStatementBlock i parts => cases b <;> rfl
    | javaMethod i rt args blocks =>
      cases b <;> try rfl
      case javaMethod i2 rt2 args2 blocks2 =>
        have hsz : entSize rt ≤ k ∧ entSize rt ≤ k2
            ∧ entSizeList args ≤ k ∧ entSizeList args ≤ k2
            ∧ entSizeList blocks ≤ k ∧ entSizeList blocks ≤ k2 := by
          simp [entSize] at hk hk2; omega
        have hrt : compareGo k fast gate rt rt2 = compareGo k2 fast gate rt rt2 :=
          hih rt hsz.1 hsz.2.1 rt2
        have hargs : compare_parts (compareGo k fast gate)
            (JEnt.javaMethod i rt args blocks)
            (JEnt.javaMethod i2 rt2 args2 blocks2) args args2 fast gate =
            compare_parts (compareGo k2 fast gate)
            (JEnt.javaMethod i rt args blocks)
            (JEnt.javaMethod i2 rt2 args2 blocks2) args args2 fast gate := by
          apply compare_parts_congr
          intro s hs o ho
          exact hih s (le_trans (entSize_le_of_mem hs) hsz.2.2.1)
            (le_trans (entSize_le_of_mem hs) hsz.2.2.2.1) o
        have hblocks : compare_parts (compareGo k fast gate)
            (JEnt.javaMethod i rt args blocks)
            (JEnt.javaMethod i2 rt2 args2 blocks2) blocks blocks2 fast gate =
            compare_parts (compareGo k2 fast gate)
            (JEnt.javaMethod i rt args blocks)
            (JEnt.javaMethod i2 rt2 args2 blocks2) blocks blocks2 fast gate := by
          apply compare_parts_congr
          intro s hs o ho
          exact hih s (le_trans (entSize_le_of_mem hs) hsz.2.2.2.2.1)
            (le_trans (entSize_le_of_mem hs) hsz.2.2.2.2.2) o
        show (if _ then _ else _) = (if _ then _ else _)
        rw [hrt, hargs, hblocks]
    | javaClass i vars meths =>
      cases b <;> try rfl
      case javaClass i2 vars2 meths2 =>
        have hsz : entSizeList vars ≤ k ∧ entSizeList vars ≤ k2
            ∧ entSizeList meths ≤ k ∧ entSizeList meths ≤ k2 := by
          simp [entSize] at hk hk2; omega
        have hvars : compare_parts (compareGo k fast gate)
            (JEnt.javaClass i vars meths) (JEnt.javaClass i2 vars2 meths2)
            vars vars2 fast gate =
            compare_parts (compareGo k2 fast gate)
            (JEnt.javaClass i vars meths) (JEnt.javaClass i2 vars2 meths2)
            vars vars2 fast gate := by
          apply compare_parts_congr
          intro s hs o ho
          exact hih s (le_trans (entSize_le_of_mem hs) hsz.1)
            (le_trans (entSize_le_of_mem hs) hsz.2.1) o
        have hmeths : compare_parts (compareGo k fast gate)
            (JEnt.javaClass i vars meths) (JEnt.javaClass i2 vars2 meths2)
            meths meths2 fast gate =
            compare_parts (compareGo k2 fast gate)
            (JEnt.javaClass i vars meths) (JEnt.javaClass i2 vars2 meths2)
            meths meths2 fast gate := by
          apply compare_parts_congr
          intro s hs o ho
          exact hih s (le_trans (entSize_le_of_mem hs) hsz.2.2.1)
            (le_trans (entSize_le_of_mem hs) hsz.2.2.2) o
        show (compare_parts _ _ _ _ _ _ _).add _ =
          (compare_parts _ _ _ _ _ _ _).add _
        rw [hvars, hmeths]
    | javaFile i cls =>
      cases b <;> try rfl
      case javaFile i2 cls2 =>
        have hsz : entSizeList cls ≤ k ∧ entSizeList cls ≤ k2 := by
          simp [entSize] at hk hk2; omega
        show compare_parts _ _ _ _ _ _ _ = compare_parts _ _ _ _ _ _ _
        apply compare_parts_congr
        intro s hs o ho
        exact hih s (le_trans (entSize_le_of_mem hs) hsz.1)
          (le_trans (entSize_le_of_mem hs) hsz.2) o
    | javaProject i t fs =>
      cases b <;> try rfl
      case javaProject i2 t2 fs2 =>
        have hsz : entSizeList fs ≤ k ∧ entSizeList fs ≤ k2 := by
          simp [entSize] at hk hk2; omega
        show compare_parts _ _ _ _ _ _ _ = compare_parts _ _ _ _ _ _ _
        apply compare_parts_congr
        intro s hs o ho
        exact hih s (le_trans (entSize_le_of_mem hs) hsz.1)
          (le_trans (entSize_le_of_mem hs) hsz.2) o
    | notFound => cases b <;> rfl

theorem compare_eq_compareGo (n : Nat) (a b : JEnt) (fast : Bool)
    (gate : Nat → Nat → Bool) (h : entSize a ≤ n) :
    compare a b fast gate = compareGo n fast gate a b :=
  compareGo_congr (entSize a) n fast gate a b (le_refl _) h

/-! Every report produced by a comparison carries the compared pair as its
first and second entities; the accumulation operators preserve the pair of
their left operand. -/

theorem greedyGo_first (fuel : Nat) :
    ∀ (matrix : List Report) (su ou : List JEnt) (acc : Report),
      ((greedyGo fuel matrix su ou acc).1.first = acc.first ∧
        (greedyGo fuel matrix su ou acc).1.second = acc.second) := by
  induction fuel with
  | zero => intro matrix su ou acc; exact ⟨rfl, rfl⟩
  | succ k ih =>
    intro matrix su ou acc
    cases matrix with
    | nil => exact ⟨rfl, rfl⟩
    | cons m0 rest =>
      have h := ih ((m0 :: rest).filter fun x =>
          !((firstMax m0 rest).second.entId == x.second.entId
            || (firstMax m0 rest).first.entId == x.first.entId))
        (su.eraseP fun x => x.entId == (firstMax m0 rest).first.entId)
        (ou.eraseP fun x => x.entId == (firstMax m0 rest).second.entId)
        (acc.add (firstMax m0 rest))
      exact ⟨h.1.trans (Report.add_first _ _), h.2.trans (Report.add_second _ _)⟩

theorem foldl_add_g_first {α : Type} (l : List α) (g : α → Report)
    (acc : Report) :
    ((l.foldl (fun a u => a.add (g u)) acc).first = acc.first ∧
      (l.foldl (fun a u => a.add (g u)) acc).second = acc.second) := by
  induction l generalizing acc with
  | nil => exact ⟨rfl, rfl⟩
  | cons u l ih =>
    rw [List.foldl_cons]
    have h := ih (acc.add (g u))
    exact ⟨h.1.trans (Report.add_first _ _), h.2.trans (Report.add_second _ _)⟩

theorem compare_parts_first (cmp : JEnt → JEnt → Report) (self other : JEnt)
    (l1 l2 : List JEnt) (fast : Bool) (gate : Nat → Nat → Bool) :
    ((compare_parts cmp self other l1 l2 fast gate).first = self ∧
      (compare_parts cmp self other l1 l2 fast gate).second = other) := by
  unfold compare_parts
  split_ifs with h1 h2
  · exact ⟨rfl, rfl⟩
  · exact ⟨rfl, rfl⟩
  · have hg := greedyGo_first ((crossMatrix cmp l1 l2).length + 1)
      (crossMatrix cmp l1 l2) l1 l2 (Report.mk 0 0 self other [])
    have hf1 := foldl_add_g_first
      (greedy (crossMatrix cmp l1 l2) l1 l2 (Report.mk 0 0 self other [])).2.1
      (fun u => Report.mk 0 10 u JEnt.notFound [])
      (greedy (crossMatrix cmp l1 l2) l1 l2 (Report.mk 0 0 self other [])).1
    have hf2 := foldl_add_g_first
      (greedy (crossMatrix cmp l1 l2) l1 l2 (Report.mk 0 0 self other [])).2.2
      (fun u => Report.mk 0 10 JEnt.notFound u [])
      ((greedy (crossMatrix cmp l1 l2) l1 l2
        (Report.mk 0 0 self other [])).2.1.foldl
        (fun a u => a.add (Report.mk 0 10 u JEnt.notFound [])) (greedy
          (crossMatrix cmp l1 l2) l1 l2 (Report.mk 0 0 self other [])).1)
    constructor
    · exact hf2.1.trans (hf1.1.trans hg.1)
    · exact hf2.2.trans (hf1.2.trans hg.2)

theorem compare_parts_single_first (self other : JEnt) (sub : Report) :
    ((compare_parts_single self other sub).first = self ∧
      (compare_parts_single self other sub).second = other) :=
  ⟨rfl, rfl⟩

theorem foldl_report_first {α : Type} (l : List α) (f : Report → α → Report)
    (acc : Report)
    (hf : ∀ r x, ((f r x).first = r.first ∧ (f r x).second = r.second)) :
    ((l.foldl f acc).first = acc.first ∧
      (l.foldl f acc).second = acc.second) := by
  induction l generalizing acc with
  | nil => exact ⟨rfl, rfl⟩
  | cons x l ih =>
    rw [List.foldl_cons]
    have h := ih (f acc x)
    have h2 := hf acc x
    exact ⟨h.1.trans h2.1, h.2.trans h2.2⟩

theorem statementBlockCompare_first (self other : JEnt)
    (p1 p2 : List (NodeKind × Nat)) :
    ((statementBlockCompare self other p1 p2).first = self ∧
      (statementBlockCompare self other p1 p2).second = other) := by
  unfold statementBlockCompare
  apply foldl_report_first
  intro r kv
  unfold statementBlockStep
  dsimp only
  split_ifs with h
  · exact ⟨rfl, rfl⟩
  · cases h2 : node_translation_dict kv.1 with
    | none => exact ⟨rfl, rfl⟩
    | some bk =>
      dsimp only
      split_ifs with h3
      · exact ⟨rfl, rfl⟩
      · exact ⟨rfl, rfl⟩

theorem compareGo_first (fuel : Nat) (fast : Bool) (gate : Nat → Nat → Bool)
    (a b : JEnt) :
    ((compareGo fuel fast gate a b).first = a ∧
      (compareGo fuel fast gate a b).second = b) := by
  cases fuel with
  | zero => exact ⟨rfl, rfl⟩
  | succ k =>
    cases a <;> cases b <;>
      simp only [compareGo] <;>
      first
        | exact ⟨rfl, rfl⟩
        | exact compare_parts_first _ _ _ _ _ _ _
        | exact statementBlockCompare_first _ _ _ _
        | (split_ifs <;>
            first
              | exact ⟨rfl, rfl⟩
              | exact compare_parts_first _ _ _ _ _ _ _)

theorem compare_first (a b : JEnt) (fast : Bool) (gate : Nat → Nat → Bool) :
    ((compare a b fast gate).first = a ∧ (compare a b fast gate).second = b) :=
  compareGo_first _ _ _ _ _

/-! The tree100 predicate satisfies its natural recursion. -/

theorem tree100Go_congr (n : Nat) :
    ∀ (n2 : Nat) (r : Report), repSize r ≤ n → repSize r ≤ n2 →
      tree100Go n r = tree100Go n2 r := by
  induction n using Nat.strong_induction_on with
  | _ n ih =>
    intro n2 r h h2
    have hp := repSize_pos r
    have h3 : 1 ≤ n := le_trans hp h
    have h4 : 1 ≤ n2 := le_trans hp h2
    match n, h3, h with
    | Nat.succ k, _, hk =>
    match n2, h4, h2 with
    | Nat.succ k2, _, hk2 =>
    cases r with
    | mk p w f s cs =>
      show ((p == 100) && cs.all (tree100Go k)) =
        ((p == 100) && cs.all (tree100Go k2))
      have he : cs.all (tree100Go k) = cs.all (tree100Go k2) := by
        apply list_all_congr
        intro c hc
        apply ih k (Nat.lt_succ_self k)
        · have := repSize_le_of_mem hc
          simp [repSize] at hk
          omega
        · have := repSize_le_of_mem hc
          simp [repSize] at hk2
          omega
      rw [he]

theorem tree100_mk (p w : Nat) (f s : JEnt) (cs : List Report) :
    tree100 (Report.mk p w f s cs) = ((p == 100) && cs.all tree100) := by
  show ((p == 100) && cs.all (tree100Go (repSizeList cs))) = _
  congr 1
  apply list_all_congr
  intro c hc
  exact tree100Go_congr _ _ c (repSize_le_of_mem hc) (le_refl _)

theorem tree100_iff (r : Report) :
    tree100 r = true ↔
      (r.probability = 100 ∧ ∀ c ∈ r.child_reports, tree100 c = true) := by
  cases r with
  | mk p w f s cs =>
    rw [tree100_mk]
    simp [Report.probability, Report.child_reports, List.all_eq_true]

theorem list_sum_eq_mul_length (l : List Nat) (c : Nat) (h : ∀ x ∈ l, x = c) :
    l.sum = c * l.length := by
  induction l with
  | nil => simp
  | cons a l ih =>
    rw [List.sum_cons, ih fun x hx => h x (List.mem_cons_of_mem _ hx),
      h a (List.mem_cons_self _ _)]
    simp [List.length_cons]
    ring

/-- C1: for all reports a and b, the combined report a + b has probability
equal to (a.probability·a.weight + b.probability·b.weight) integer-divided by
a.weight + b.weight where a zero denominator is replaced by 1; its weight is
a.weight + b.weight; and its first and second entities are a.first and
a.second. -/
theorem C1_add_weighted_average (a b : Report) :
    (a.add b).probability =
      (a.probability * a.weight + b.probability * b.weight) /
        (if a.weight + b.weight = 0 then 1 else a.weight + b.weight) ∧
    (a.add b).weight = a.weight + b.weight ∧
    (a.add b).first = a.first ∧
    (a.add b).second = a.second :=
  ⟨rfl, rfl, rfl, rfl⟩

/-- C8: combining a + b concatenates both child lists exactly when a.first
and b.first, or a.second and b.second, are entities of the same variant;
otherwise it keeps a's children and appends b itself as a new child exactly
when at least one of b's entities has the visualise flag; and the Modifier,
Type, Parameter and StatementBlock variants never have the visualise flag,
so such leaves are never appended. -/
theorem C8_add_children_policy (a b : Report) :
    (a.add b).child_reports =
      (if a.first.kind = b.first.kind ∨ a.second.kind = b.second.kind then
        a.child_reports ++ b.child_reports
      else if b.first.visualise || b.second.visualise then
        a.child_reports ++ [b]
      else a.child_reports) ∧
    (∀ i nm, (JEnt.javaModifier i nm).visualise = false) ∧
    (∀ i nm ud non, (JEnt.javaType i nm ud non).visualise = false) ∧
    (∀ i t, (JEnt.javaParameter i t).visualise = false) ∧
    (∀ i ps, (JEnt.javaStatementBlock i ps).visualise = false) :=
  ⟨rfl, fun _ _ => rfl, fun _ _ _ _ => rfl, fun _ _ => rfl, fun _ _ => rfl⟩

/-- C10 counterexample: the empty-side collection comparison does produce
Report(0, 0, self, other), but adding that weight-0 report to a report that
itself has weight 0 and probability 5 resets the probability to 0, so a
weight-0 report is not an additive identity for arbitrary reports. -/
theorem C10_counterexample :
    (compare_parts (fun x y => compare x y false neverSkip)
        (JEnt.javaClass 1 [] []) (JEnt.javaClass 2 [] [])
        [] [JEnt.javaModifier 3 "public"] false neverSkip) =
      Report.mk 0 0 (JEnt.javaClass 1 [] []) (JEnt.javaClass 2 [] []) [] ∧
    ((Report.mk 5 0 JEnt.notFound JEnt.notFound []).add
        (Report.mk 0 0 (JEnt.javaClass 1 [] []) (JEnt.javaClass 2 [] [])
          [])).probability = 0 ∧
    (Report.mk 5 0 JEnt.notFound JEnt.notFound []).probability = 5 ∧
    (0 : Nat) ≠ 5 :=
  ⟨rfl, rfl, rfl, by decide⟩

/-- C10 (amended): a compare_parts call on a list attribute with either side
empty returns Report(0, 0, self, other); adding any weight-0 report to a
report r never changes r's weight, and leaves r's probability unchanged
provided r has positive weight or probability 0 (every weight-0 report the
program itself constructs has probability 0). -/
theorem C10_amended (cmp : JEnt → JEnt → Report) (self other : JEnt)
    (l1 l2 : List JEnt) (fast : Bool) (gate : Nat → Nat → Bool) (r z : Report)
    (hempty : l1 = [] ∨ l2 = []) (hz : z.weight = 0) :
    compare_parts cmp self other l1 l2 fast gate =
      Report.mk 0 0 self other [] ∧
    (r.add z).weight = r.weight ∧
    (0 < r.weight ∨ r.probability = 0 → (r.add z).probability = r.probability)
    := by
  refine ⟨?_, ?_, ?_⟩
  · unfold compare_parts
    have hc : (l1.isEmpty || l2.isEmpty) = true := by
      rcases hempty with h | h <;> subst h <;> simp
    rw [if_pos hc]
  · rw [Report.add_weight, hz]
    omega
  · intro hr
    rw [Report.add_probability, hz]
    rcases hr with hr | hr
    · have hne : ¬ (r.weight + 0 = 0) := by omega
      rw [if_neg hne]
      rw [Nat.mul_zero, Nat.add_zero, Nat.add_zero]
      exact Nat.mul_div_cancel _ hr
    · rw [hr]
      simp

/-- C10 witness: the amended statement at a concrete input. -/
theorem C10_witness :
    compare_parts (fun x y => compare x y false neverSkip)
        (JEnt.javaClass 1 [] []) (JEnt.javaClass 2 [] [])
        [] [JEnt.javaModifier 3 "public"] false neverSkip =
      Report.mk 0 0 (JEnt.javaClass 1 [] []) (JEnt.javaClass 2 [] []) [] ∧
    ((Report.mk 40 10 JEnt.notFound JEnt.notFound []).add
      (Report.mk 0 0 JEnt.notFound JEnt.notFound [])).weight = 10 ∧
    (0 < 10 ∨ (40 : Nat) = 0 →
      ((Report.mk 40 10 JEnt.notFound JEnt.notFound []).add
        (Report.mk 0 0 JEnt.notFound JEnt.notFound [])).probability = 40) :=
  C10_amended _ _ _ _ _ false neverSkip
    (Report.mk 40 10 JEnt.notFound JEnt.notFound [])
    (Report.mk 0 0 JEnt.notFound JEnt.notFound []) (Or.inl rfl) rfl

/-- C2 counterexample: a collection comparison with an empty left list and a
one-element right list returns a report of weight 0, not
10·max(0, 1) = 10. -/
theorem C2_counterexample :
    (compare_parts (fun x y => compare x y false neverSkip)
        (JEnt.javaClass 1 [] []) (JEnt.javaClass 2 [] [])
        [] [JEnt.javaModifier 3 "public"] false neverSkip).weight = 0 ∧
    10 * max (List.length ([] : List JEnt))
        (List.length [JEnt.javaModifier 3 "public"]) = 10 ∧
    (0 : Nat) ≠ 10 :=
  ⟨rfl, rfl, by decide⟩

/-- C2 (amended): for a collection comparison with both sides nonempty,
fast scan off, distinct object identities within each collection, element
comparisons that report the compared pair itself, and every element
comparison of weight 10, the resulting report has weight exactly
10·max(m, n): min(m, n) matched pairs of weight 10 plus a weight-10 NotFound
penalty for each unmatched element. -/
theorem C2_amended (cmp : JEnt → JEnt → Report) (self other : JEnt)
    (l1 l2 : List JEnt) (gate : Nat → Nat → Bool)
    (h1 : l1 ≠ []) (h2 : l2 ≠ [])
    (hn1 : (l1.map JEnt.entId).Nodup) (hn2 : (l2.map JEnt.entId).Nodup)
    (hfs : ∀ s ∈ l1, ∀ o ∈ l2, (cmp s o).first = s ∧ (cmp s o).second = o)
    (hw : ∀ s ∈ l1, ∀ o ∈ l2, (cmp s o).weight = 10) :
    (compare_parts cmp self other l1 l2 false gate).weight =
      10 * max l1.length l2.length := by
  obtain ⟨ms, su, ou, hgr, hmslen, hmsmem, hsulen, hoalen, _⟩ :=
    greedy_cross_spec (l1.length + l2.length) l1 l2 cmp
      (Report.mk 0 0 self other []) (le_refl _) hn1 hn2 hfs
  unfold compare_parts
  have hc : (l1.isEmpty || l2.isEmpty) = false := by
    cases l1 with
    | nil => exact absurd rfl h1
    | cons a l =>
      cases l2 with
      | nil => exact absurd rfl h2
      | cons b l2t => rfl
  rw [hc]
  simp only [Bool.false_eq_true, if_false, Bool.false_and]
  rw [hgr]
  simp only
  rw [foldl_otherPenalty_weight, foldl_selfPenalty_weight, foldl_add_weight]
  have hsum : (ms.map Report.weight).sum = 10 * ms.length := by
    rw [list_sum_eq_mul_length _ 10]
    · rw [List.length_map]
    · intro x hx
      obtain ⟨m, hm, hxm⟩ := List.mem_map.mp hx
      obtain ⟨s, hs, o, ho, hmeq⟩ := hmsmem m hm
      rw [← hxm, hmeq]
      exact hw s hs o ho
  rw [hsum, hmslen, hsulen, hoalen]
  show 0 + 10 * (min l1.length l2.length) + 10 * (l1.length - l2.length)
      + 10 * (l2.length - l1.length) = 10 * max l1.length l2.length
  omega

/-- C2 witness: the amended statement at a concrete input, one modifier
against two. -/
theorem C2_witness :
    (compare_parts (fun x y => compare x y false neverSkip)
        (JEnt.javaClass 1 [] []) (JEnt.javaClass 2 [] [])
        [JEnt.javaModifier 4 "public"]
        [JEnt.javaModifier 5 "static", JEnt.javaModifier 6 "public"]
        false neverSkip).weight =
      10 * max (List.length [JEnt.javaModifier 4 "public"])
        (List.length [JEnt.javaModifier 5 "static",
          JEnt.javaModifier 6 "public"]) :=
  C2_amended _ _ _ _ _ _ (by simp) (by simp) (by decide) (by decide)
    (by
      intro s hs o ho
      have hs2 : s = JEnt.javaModifier 4 "public" := List.mem_singleton.mp hs
      subst hs2
      rcases List.mem_cons.mp ho with h | h
      · subst h; exact ⟨rfl, rfl⟩
      · have h2 : o = JEnt.javaModifier 6 "public" := by simpa using h
        subst h2; exact ⟨rfl, rfl⟩)
    (by
      intro s hs o ho
      have hs2 : s = JEnt.javaModifier 4 "public" := List.mem_singleton.mp hs
      subst hs2
      rcases List.mem_cons.mp ho with h | h
      · subst h; rfl
      · have h2 : o = JEnt.javaModifier 6 "public" := by simpa using h
        subst h2; rfl)

theorem foldl_weight_count {α : Type} (l : List α) (f : Report → α → Report)
    (p : α → Bool)
    (hf : ∀ r x, (f r x).weight = r.weight + (if p x then 10 else 0)) :
    ∀ acc : Report,
      (l.foldl f acc).weight = acc.weight + 10 * l.countP p := by
  induction l with
  | nil => intro acc; simp
  | cons x l ih =>
    intro acc
    rw [List.foldl_cons, ih, hf, List.countP_cons]
    cases h : p x <;> simp only [h, if_true, if_false, Bool.false_eq_true] <;>
      omega

theorem statementBlockStep_weight (self other : JEnt)
    (op : List (NodeKind × Nat)) (r : Report) (kv : NodeKind × Nat) :
    (statementBlockStep self other op r kv).weight =
      r.weight + (if (decide (0 < partsGet op kv.1) ||
        (match node_translation_dict kv.1 with
          | some bk2 => decide (0 < partsGet op bk2)
          | none => true)) then 10 else 0) := by
  unfold statementBlockStep
  dsimp only
  by_cases h : partsGet op kv.1 > 0
  · rw [if_pos h, decide_eq_true h, Bool.true_or]
    rfl
  · have hd : decide (0 < partsGet op kv.1) = false := by
      simpa using h
    rw [if_neg h]
    cases hbk : node_translation_dict kv.1 with
    | none =>
      dsimp only
      rw [hd, Bool.false_or]
      rfl
    | some bk2 =>
      dsimp only
      by_cases h2 : partsGet op bk2 > 0
      · rw [if_pos h2, hd, decide_eq_true h2, Bool.false_or]
        rfl
      · have hd2 : decide (0 < partsGet op bk2) = false := by
          simpa using h2
        rw [if_neg h2, hd, hd2, Bool.false_or]
        rfl

theorem statementBlockCompare_weight (self other : JEnt)
    (parts op : List (NodeKind × Nat)) :
    (statementBlockCompare self other parts op).weight =
      10 * parts.countP (fun kv => decide (0 < partsGet op kv.1) ||
        (match node_translation_dict kv.1 with
          | some bk2 => decide (0 < partsGet op bk2)
          | none => true)) := by
  unfold statementBlockCompare
  rw [foldl_weight_count parts (statementBlockStep self other op) _
    (statementBlockStep_weight self other op)]
  show (Report.mk 0 0 self other []).weight + _ = _
  show 0 + _ = _
  omega

/-- C6 counterexample: a left histogram consisting of one while-statement,
compared against an empty right histogram. The while kind has a
node-translation entry (to for-statements) whose count on the right is zero,
so the claim requires a probability-0 weight-10 report to be accumulated;
the code accumulates nothing and the result has weight 0. -/
theorem C6_counterexample :
    node_translation_dict NodeKind.whileStatement =
      some NodeKind.forStatement ∧
    partsGet [] NodeKind.forStatement = 0 ∧
    (statementBlockCompare (JEnt.javaStatementBlock 1 [(.whileStatement, 1)])
        (JEnt.javaStatementBlock 2 [])
        [(.whileStatement, 1)] []).weight = 0 ∧
    (0 : Nat) ≠ 10 :=
  ⟨rfl, rfl, rfl, by decide⟩

/-- C6 (amended): in statement-block comparison, for each left kind with
count self_n: a nonzero right count accumulates Report(score, 10); else, if
the translation table has a fallback with nonzero right count, the halved
score is accumulated with weight 10; if the fallback exists but its count is
zero, nothing is accumulated (weight unchanged); only a kind with no
translation entry accumulates Report(0, 10). Hence the total weight is 10
times the number of left kinds whose own count is nonzero on the right, or
whose fallback count is nonzero, or which have no translation entry. -/
theorem C6_amended (self other : JEnt) (k : NodeKind) (n : Nat)
    (bk : NodeKind) (op parts : List (NodeKind × Nat)) :
    (0 < partsGet op k →
      statementBlockCompare self other [(k, n)] op =
        (Report.mk 0 0 self other []).add
          (Report.mk (calculate_score_based_on_numbers n (partsGet op k))
            10 self other [])) ∧
    (partsGet op k = 0 → node_translation_dict k = some bk →
      0 < partsGet op bk →
      statementBlockCompare self other [(k, n)] op =
        (Report.mk 0 0 self other []).add
          (Report.mk
            (calculate_score_based_on_numbers n (partsGet op bk) / 2)
            10 self other [])) ∧
    (partsGet op k = 0 → node_translation_dict k = some bk →
      partsGet op bk = 0 →
      statementBlockCompare self other [(k, n)] op =
        Report.mk 0 0 self other []) ∧
    (partsGet op k = 0 → node_translation_dict k = none →
      statementBlockCompare self other [(k, n)] op =
        (Report.mk 0 0 self other []).add (Report.mk 0 10 self other [])) ∧
    ((statementBlockCompare self other parts op).weight =
      10 * parts.countP fun kv =>
        decide (0 < partsGet op kv.1) ||
          (match node_translation_dict kv.1 with
            | some bk2 => decide (0 < partsGet op bk2)
            | none => true)) := by
  refine ⟨?_, ?_, ?_, ?_, statementBlockCompare_weight self other parts op⟩
  · intro h
    unfold statementBlockCompare
    rw [List.foldl_cons, List.foldl_nil]
    unfold statementBlockStep
    dsimp only
    rw [if_pos h]
  · intro h hbk h2
    unfold statementBlockCompare
    rw [List.foldl_cons, List.foldl_nil]
    unfold statementBlockStep
    dsimp only
    rw [if_neg (by omega), hbk]
    dsimp only
    rw [if_pos h2]
  · intro h hbk h2
    unfold statementBlockCompare
    rw [List.foldl_cons, List.foldl_nil]
    unfold statementBlockStep
    dsimp only
    rw [if_neg (by omega), hbk]
    dsimp only
    rw [if_neg (by omega)]
  · intro h hbk
    unfold statementBlockCompare
    rw [List.foldl_cons, List.foldl_nil]
    unfold statementBlockStep
    dsimp only
    rw [if_neg (by omega), hbk]

/-- C6 witness: the amended statement at a concrete input, a while-statement
matched against a for-statement through the translation table for half
credit. -/
theorem C6_witness :
    statementBlockCompare (JEnt.javaStatementBlock 1 [(.whileStatement, 1)])
        (JEnt.javaStatementBlock 2 [(.forStatement, 1)])
        [(NodeKind.whileStatement, 1)] [(NodeKind.forStatement, 1)] =
      (Report.mk 0 0 (JEnt.javaStatementBlock 1 [(.whileStatement, 1)])
          (JEnt.javaStatementBlock 2 [(.forStatement, 1)]) []).add
        (Report.mk
          (calculate_score_based_on_numbers 1
            (partsGet [(NodeKind.forStatement, 1)] NodeKind.forStatement) / 2)
          10 (JEnt.javaStatementBlock 1 [(.whileStatement, 1)])
          (JEnt.javaStatementBlock 2 [(.forStatement, 1)]) []) :=
  (C6_amended (JEnt.javaStatementBlock 1 [(.whileStatement, 1)])
      (JEnt.javaStatementBlock 2 [(.forStatement, 1)])
      NodeKind.whileStatement 1 NodeKind.forStatement
      [(NodeKind.forStatement, 1)] []).2.1 rfl rfl (by decide)

theorem beq_and_snd_some_iff (x y : Option String) :
    ((x == y) && !(y == (none : Option String))) = true ↔
      ∃ s, x = some s ∧ y = some s := by
  cases y with
  | none => simp
  | some s =>
    constructor
    · intro h
      rw [Bool.and_eq_true] at h
      exact ⟨s, eq_of_beq h.1, rfl⟩
    · rintro ⟨s2, h1, h2⟩
      injection h2 with h3
      rw [h1, h3]
      simp

theorem beq_and_fst_some_iff (x y : Option String) :
    ((x == y) && !(x == (none : Option String))) = true ↔
      ∃ s, x = some s ∧ y = some s := by
  cases x with
  | none => simp
  | some s =>
    constructor
    · intro h
      rw [Bool.and_eq_true] at h
      exact ⟨s, rfl, (eq_of_beq h.1).symm⟩
    · rintro ⟨s2, h1, h2⟩
      injection h1 with h3
      rw [h2, h3]
      simp

theorem not_none_and_beq_iff (x y : Option String) :
    ((!(x == (none : Option String))) && (x == y)) = true ↔
      ∃ s, x = some s ∧ y = some s := by
  cases x with
  | none => simp
  | some s =>
    constructor
    · intro h
      rw [Bool.and_eq_true] at h
      exact ⟨s, rfl, (eq_of_beq h.2).symm⟩
    · rintro ⟨s2, h1, h2⟩
      injection h1 with h3
      rw [h2, h3]
      simp

/-- C7: JavaType.compare returns probability 100 with weight 1 when both
type names are empty (Python-falsy); probability 0 with weight 10 when
exactly one side is user-defined; and for two non-user-defined types, in
cascade order: 100/10 on exact name match, 75/10 when one side's
compatible format equals the other's raw name, 50/10 when both sides share
the same (present) compatible format, and 0/10 otherwise. -/
theorem C7_java_type_compare (i i2 : Nat) (nm nm2 : Option String)
    (ud ud2 : Bool) (non non2 : List JEnt) (fast : Bool)
    (gate : Nat → Nat → Bool) :
    (pyFalsy nm = true → pyFalsy nm2 = true →
      compare (.javaType i nm ud non) (.javaType i2 nm2 ud2 non2) fast gate =
        Report.mk 100 1 (.javaType i nm ud non) (.javaType i2 nm2 ud2 non2)
          []) ∧
    (¬(pyFalsy nm = true ∧ pyFalsy nm2 = true) → ud ≠ ud2 →
      compare (.javaType i nm ud non) (.javaType i2 nm2 ud2 non2) fast gate =
        Report.mk 0 10 (.javaType i nm ud non) (.javaType i2 nm2 ud2 non2)
          []) ∧
    (¬(pyFalsy nm = true ∧ pyFalsy nm2 = true) → ud = false → ud2 = false →
      nm = nm2 →
      compare (.javaType i nm ud non) (.javaType i2 nm2 ud2 non2) fast gate =
        Report.mk 100 10 (.javaType i nm ud non) (.javaType i2 nm2 ud2 non2)
          []) ∧
    (¬(pyFalsy nm = true ∧ pyFalsy nm2 = true) → ud = false → ud2 = false →
      nm ≠ nm2 →
      ((∃ s, compatible_format nm = some s ∧ nm2 = some s) ∨
        (∃ s, nm = some s ∧ compatible_format nm2 = some s)) →
      compare (.javaType i nm ud non) (.javaType i2 nm2 ud2 non2) fast gate =
        Report.mk 75 10 (.javaType i nm ud non) (.javaType i2 nm2 ud2 non2)
          []) ∧
    (¬(pyFalsy nm = true ∧ pyFalsy nm2 = true) → ud = false → ud2 = false →
      nm ≠ nm2 →
      ¬((∃ s, compatible_format nm = some s ∧ nm2 = some s) ∨
        (∃ s, nm = some s ∧ compatible_format nm2 = some s)) →
      (∃ s, compatible_format nm = some s ∧ compatible_format nm2 = some s) →
      compare (.javaType i nm ud non) (.javaType i2 nm2 ud2 non2) fast gate =
        Report.mk 50 10 (.javaType i nm ud non) (.javaType i2 nm2 ud2 non2)
          []) ∧
    (¬(pyFalsy nm = true ∧ pyFalsy nm2 = true) → ud = false → ud2 = false →
      nm ≠ nm2 →
      ¬((∃ s, compatible_format nm = some s ∧ nm2 = some s) ∨
        (∃ s, nm = some s ∧ compatible_format nm2 = some s)) →
      ¬(∃ s, compatible_format nm = some s ∧ compatible_format nm2 = some s) →
      compare (.javaType i nm ud non) (.javaType i2 nm2 ud2 non2) fast gate =
        Report.mk 0 10 (.javaType i nm ud non) (.javaType i2 nm2 ud2 non2)
          []) := by
  have hc75 : ∀ hne : ¬((∃ s, compatible_format nm = some s ∧ nm2 = some s) ∨
      (∃ s, nm = some s ∧ compatible_format nm2 = some s)),
      ¬(((compatible_format nm == nm2
          && !(nm2 == (none : Option String)))
        || (nm == compatible_format nm2
          && !(nm == (none : Option String)))) = true) := by
    intro hne hcontra
    rw [Bool.or_eq_true] at hcontra
    rcases hcontra with h | h
    · exact hne (Or.inl ((beq_and_snd_some_iff _ _).mp h))
    · exact hne (Or.inr ((beq_and_fst_some_iff _ _).mp h))
  refine ⟨?_, ?_, ?_, ?_, ?_, ?_⟩
  · intro h1 h2
    have hc : (pyFalsy nm && pyFalsy nm2) = true := by rw [h1, h2]; rfl
    show (if _ then _ else _) = _
    rw [if_pos hc]
  · intro hnb hud
    have hc1 : ¬((pyFalsy nm && pyFalsy nm2) = true) := fun hcontra =>
      hnb (by rw [Bool.and_eq_true] at hcontra; exact hcontra)
    have hc2 : (ud != ud2) = true := by
      simp only [bne_iff_ne, ne_eq]
      exact hud
    show (if _ then _ else _) = _
    rw [if_neg hc1, if_pos hc2]
  · intro hnb hud hud2 hnm
    subst hud; subst hud2
    have hc1 : ¬((pyFalsy nm && pyFalsy nm2) = true) := fun hcontra =>
      hnb (by rw [Bool.and_eq_true] at hcontra; exact hcontra)
    have hc3 : (nm == nm2) = true := by rw [hnm]; exact beq_self_eq_true _
    show (if _ then _ else _) = _
    rw [if_neg hc1]
    show (if _ then _ else _) = _
    rw [if_neg (by simp), if_pos (show (!false) = true from rfl), if_pos hc3]
  · intro hnb hud hud2 hnm hcomp
    subst hud; subst hud2
    have hc1 : ¬((pyFalsy nm && pyFalsy nm2) = true) := fun hcontra =>
      hnb (by rw [Bool.and_eq_true] at hcontra; exact hcontra)
    have hc3 : ¬((nm == nm2) = true) := fun hcontra => hnm (eq_of_beq hcontra)
    have hc4 : ((compatible_format nm == nm2
          && !(nm2 == (none : Option String)))
        || (nm == compatible_format nm2
          && !(nm == (none : Option String)))) = true := by
      rw [Bool.or_eq_true]
      rcases hcomp with ⟨s, h1, h2⟩ | ⟨s, h1, h2⟩
      · exact Or.inl ((beq_and_snd_some_iff _ _).mpr ⟨s, h1, h2⟩)
      · exact Or.inr ((beq_and_fst_some_iff _ _).mpr ⟨s, h1, h2⟩)
    show (if _ then _ else _) = _
    rw [if_neg hc1]
    show (if _ then _ else _) = _
    rw [if_neg (by simp), if_pos (show (!false) = true from rfl), if_neg hc3, if_pos hc4]
  · intro hnb hud hud2 hnm hn75 h50
    subst hud; subst hud2
    have hc1 : ¬((pyFalsy nm && pyFalsy nm2) = true) := fun hcontra =>
      hnb (by rw [Bool.and_eq_true] at hcontra; exact hcontra)
    have hc3 : ¬((nm == nm2) = true) := fun hcontra => hnm (eq_of_beq hcontra)
    have hc5 : ((!(compatible_format nm == (none : Option String)))
        && (compatible_format nm == compatible_format nm2)) = true :=
      (not_none_and_beq_iff _ _).mpr h50
    show (if _ then _ else _) = _
    rw [if_neg hc1]
    show (if _ then _ else _) = _
    rw [if_neg (by simp), if_pos (show (!false) = true from rfl), if_neg hc3, if_neg (hc75 hn75),
      if_pos hc5]
  · intro hnb hud hud2 hnm hn75 hn50
    subst hud; subst hud2
    have hc1 : ¬((pyFalsy nm && pyFalsy nm2) = true) := fun hcontra =>
      hnb (by rw [Bool.and_eq_true] at hcontra; exact hcontra)
    have hc3 : ¬((nm == nm2) = true) := fun hcontra => hnm (eq_of_beq hcontra)
    have hc5 : ¬(((!(compatible_format nm == (none : Option String)))
        && (compatible_format nm == compatible_format nm2)) = true) :=
      fun hcontra => hn50 ((not_none_and_beq_iff _ _).mp hcontra)
    show (if _ then _ else _) = _
    rw [if_neg hc1]
    show (if _ then _ else _) = _
    rw [if_neg (by simp), if_pos (show (!false) = true from rfl), if_neg hc3, if_neg (hc75 hn75),
      if_neg hc5]

/-- C7 witness: int against Double exercises the 75/10 compatible-format
branch at a concrete input. -/
theorem C7_witness :
    compare (.javaType 1 (some "int") false [])
        (.javaType 2 (some "Double") false []) false neverSkip =
      Report.mk 75 10 (.javaType 1 (some "int") false [])
        (.javaType 2 (some "Double") false []) [] :=
  (C7_java_type_compare 1 2 (some "int") (some "Double") false false [] []
      false neverSkip).2.2.2.1
    (by simp [pyFalsy]) rfl rfl (by simp)
    (Or.inl ⟨"Double", rfl, rfl⟩)

/-! Lemmas about the comparison-pair generator. -/

theorem genPairs_mem {α : Type} (P : List α) (x y : α) :
    (x, y) ∈ genPairs P ↔
      ∃ pre mid post, P = pre ++ x :: mid ++ y :: post := by
  induction P with
  | nil =>
    constructor
    · intro h
      simp [genPairs] at h
    · rintro ⟨pre, mid, post, h⟩
      cases pre <;> simp at h
  | cons p rest ih =>
    constructor
    · intro h
      simp only [genPairs, List.mem_append] at h
      rcases h with h1 | h1
      · obtain ⟨q, hq, heq⟩ := List.mem_map.mp h1
        injection heq with he1 he2
        subst he1
        subst he2
        obtain ⟨mid, post, hsplit⟩ := List.append_of_mem hq
        exact ⟨[], mid, post, by rw [hsplit]; simp⟩
      · obtain ⟨pre, mid, post, hsplit⟩ := ih.mp h1
        exact ⟨p :: pre, mid, post, by rw [hsplit]; simp⟩
    · rintro ⟨pre, mid, post, hsplit⟩
      cases pre with
      | nil =>
        rw [List.nil_append] at hsplit
        injection hsplit with h1 h2
        simp only [genPairs, List.mem_append]
        left
        refine List.mem_map.mpr ⟨y, ?_, ?_⟩
        · rw [h2]
          simp
        · rw [h1]
      | cons a pre2 =>
        rw [List.cons_append] at hsplit
        injection hsplit with h1 h2
        simp only [genPairs, List.mem_append]
        right
        exact ih.mpr ⟨pre2, mid, post, h2⟩

theorem genPairs_sub {α : Type} {x y : α} {P : List α}
    (h : (x, y) ∈ genPairs P) : x ∈ P ∧ y ∈ P := by
  obtain ⟨pre, mid, post, hsplit⟩ := (genPairs_mem P x y).mp h
  rw [hsplit]
  constructor <;> simp

theorem sandwich_antisym {α : Type} : ∀ (P : List α), P.Nodup → ∀ x y : α,
    (∃ pre mid post, P = pre ++ x :: mid ++ y :: post) →
    (∃ pre mid post, P = pre ++ y :: mid ++ x :: post) → False := by
  intro P
  induction P with
  | nil =>
    intro _ x y h1 _
    obtain ⟨pre, mid, post, h⟩ := h1
    cases pre <;> simp at h
  | cons a P ih =>
    intro hP x y h1 h2
    obtain ⟨pre, mid, post, hs1⟩ := h1
    obtain ⟨pre2, mid2, post2, hs2⟩ := h2
    cases pre with
    | nil =>
      rw [List.nil_append] at hs1
      injection hs1 with ha1 hb1
      cases pre2 with
      | nil =>
        rw [List.nil_append] at hs2
        injection hs2 with ha2 hb2
        have hy : y ∈ P := by
          rw [hb1]
          simp
        rw [← ha2] at hy
        exact (List.nodup_cons.mp hP).1 hy
      | cons b pre2t =>
        rw [List.cons_append] at hs2
        injection hs2 with ha2 hb2
        have hx : x ∈ P := by
          rw [hb2]
          simp
        rw [← ha1] at hx
        exact (List.nodup_cons.mp hP).1 hx
    | cons b pret =>
      rw [List.cons_append] at hs1
      injection hs1 with ha1 hb1
      cases pre2 with
      | nil =>
        rw [List.nil_append] at hs2
        injection hs2 with ha2 hb2
        have hy : y ∈ P := by
          rw [hb1]
          simp
        rw [← ha2] at hy
        exact (List.nodup_cons.mp hP).1 hy
      | cons c pre2t =>
        rw [List.cons_append] at hs2
        injection hs2 with ha2 hb2
        exact ih (List.nodup_cons.mp hP).2 x y ⟨pret, mid, post, hb1⟩
          ⟨pre2t, mid2, post2, hb2⟩

theorem exists_sandwich_of_mem_mem {α : Type} (P : List α) (x y : α)
    (hx : x ∈ P) (hy : y ∈ P) (hne : x ≠ y) :
    (∃ pre mid post, P = pre ++ x :: mid ++ y :: post) ∨
    (∃ pre mid post, P = pre ++ y :: mid ++ x :: post) := by
  induction P with
  | nil => cases hx
  | cons a P ih =>
    rcases List.mem_cons.mp hx with rfl | h1
    · have hy2 : y ∈ P := by
        rcases List.mem_cons.mp hy with h2 | h2
        · exact absurd h2.symm hne
        · exact h2
      obtain ⟨s, t, hst⟩ := List.append_of_mem hy2
      exact Or.inl ⟨[], s, t, by rw [hst]; simp⟩
    · rcases List.mem_cons.mp hy with rfl | h2
      · obtain ⟨s, t, hst⟩ := List.append_of_mem h1
        exact Or.inr ⟨[], s, t, by rw [hst]; simp⟩
      · rcases ih h1 h2 with ⟨pre, mid, post, hs⟩ | ⟨pre, mid, post, hs⟩
        · exact Or.inl ⟨a :: pre, mid, post, by rw [hs]; simp⟩
        · exact Or.inr ⟨a :: pre, mid, post, by rw [hs]; simp⟩

theorem tPairs_mem {α : Type} (T P : List α) (x y : α) :
    (x, y) ∈ (T.flatMap fun t => P.map fun p => (t, p)) ↔
      x ∈ T ∧ y ∈ P := by
  constructor
  · intro h
    obtain ⟨t, ht, hmem⟩ := List.mem_flatMap.mp h
    obtain ⟨p, hp, heq⟩ := List.mem_map.mp hmem
    injection heq with he1 he2
    subst he1
    subst he2
    exact ⟨ht, hp⟩
  · rintro ⟨hx, hy⟩
    exact List.mem_flatMap.mpr ⟨x, hx, List.mem_map.mpr ⟨y, hy, rfl⟩⟩

theorem genPairs_nodup {α : Type} (P : List α) (hP : P.Nodup) :
    (genPairs P).Nodup := by
  induction P with
  | nil => exact List.nodup_nil
  | cons p rest ih =>
    show ((rest.map fun q => (p, q)) ++ genPairs rest).Nodup
    apply List.Nodup.append
    · apply List.Nodup.map
      · intro a b hab
        injection hab
      · exact (List.nodup_cons.mp hP).2
    · exact ih (List.nodup_cons.mp hP).2
    · intro z hz1 hz2
      obtain ⟨q, hq, heq⟩ := List.mem_map.mp hz1
      rw [← heq] at hz2
      exact (List.nodup_cons.mp hP).1 (genPairs_sub hz2).1

theorem tPairs_nodup {α : Type} (T P : List α) (hT : T.Nodup) (hP : P.Nodup) :
    (T.flatMap fun t => P.map fun p => (t, p)).Nodup := by
  induction T with
  | nil => exact List.nodup_nil
  | cons t T ih =>
    rw [List.flatMap_cons]
    apply List.Nodup.append
    · apply List.Nodup.map
      · intro a b hab
        injection hab
      · exact hP
    · exact ih (List.nodup_cons.mp hT).2
    · intro z hz1 hz2
      obtain ⟨pz, hpz, heq⟩ := List.mem_map.mp hz1
      rw [← heq] at hz2
      exact (List.nodup_cons.mp hT).1 ((tPairs_mem T P t pz).mp hz2).1

/-- C9: for distinct non-template projects P and templates T (disjoint from
P), the generated comparison tasks are exactly each template paired with each
project plus each unordered pair of distinct projects taken in list order;
no template is paired with a template, no pair occurs twice, and no pair
occurs in both orders. -/
theorem C9_generate_comparisons {α : Type} (projects template_projs : List α)
    (hP : projects.Nodup) (hT : template_projs.Nodup)
    (hD : ∀ t ∈ template_projs, t ∉ projects) :
    (∀ x y : α, ((x, y) ∈ generate_comparisons projects template_projs ↔
        (x ∈ template_projs ∧ y ∈ projects) ∨
        ∃ pre mid post, projects = pre ++ x :: mid ++ y :: post)) ∧
    (∀ x ∈ projects, ∀ y ∈ projects, x ≠ y →
        (x, y) ∈ generate_comparisons projects template_projs ∨
        (y, x) ∈ generate_comparisons projects template_projs) ∧
    (∀ x ∈ template_projs, ∀ y ∈ template_projs,
        (x, y) ∉ generate_comparisons projects template_projs) ∧
    (generate_comparisons projects template_projs).Nodup ∧
    (∀ x y : α, (x, y) ∈ generate_comparisons projects template_projs →
        (y, x) ∉ generate_comparisons projects template_projs) := by
  have hmem : ∀ x y : α,
      ((x, y) ∈ generate_comparisons projects template_projs ↔
        (x ∈ template_projs ∧ y ∈ projects) ∨
        ∃ pre mid post, projects = pre ++ x :: mid ++ y :: post) := by
    intro x y
    unfold generate_comparisons
    rw [List.mem_append]
    constructor
    · rintro (h | h)
      · exact Or.inl ((tPairs_mem _ _ _ _).mp h)
      · exact Or.inr ((genPairs_mem _ _ _).mp h)
    · rintro (h | h)
      · exact Or.inl ((tPairs_mem _ _ _ _).mpr h)
      · exact Or.inr ((genPairs_mem _ _ _).mpr h)
  refine ⟨hmem, ?_, ?_, ?_, ?_⟩
  · intro x hx y hy hne
    rcases exists_sandwich_of_mem_mem projects x y hx hy hne with hs | hs
    · exact Or.inl ((hmem x y).mpr (Or.inr hs))
    · exact Or.inr ((hmem y x).mpr (Or.inr hs))
  · intro x hxT y hyT hcontra
    rcases (hmem x y).mp hcontra with ⟨_, hyP⟩ | ⟨pre, mid, post, hsplit⟩
    · exact hD y hyT hyP
    · exact hD x hxT (by rw [hsplit]; simp)
  · apply List.Nodup.append
    · exact tPairs_nodup _ _ hT hP
    · exact genPairs_nodup _ hP
    · intro z hz1 hz2
      obtain ⟨a, b⟩ := z
      exact hD a ((tPairs_mem _ _ _ _).mp hz1).1 (genPairs_sub hz2).1
  · intro x y hxy hyx
    rcases (hmem x y).mp hxy with ⟨hxT, hyP⟩ | ⟨pre, mid, post, hs1⟩
    · rcases (hmem y x).mp hyx with ⟨hyT, _⟩ | ⟨pre, mid, post, hs2⟩
      · exact hD y hyT hyP
      · exact hD x hxT (by rw [hs2]; simp)
    · rcases (hmem y x).mp hyx with ⟨hyT, _⟩ | ⟨pre2, mid2, post2, hs2⟩
      · exact hD y hyT (by rw [hs1]; simp)
      · exact sandwich_antisym projects hP x y ⟨pre, mid, post, hs1⟩
          ⟨pre2, mid2, post2, hs2⟩

/-- C9 witness: the scheduler pair list for two projects and one template is
duplicate-free. -/
theorem C9_witness : (generate_comparisons [1, 2] [10]).Nodup :=
  (C9_generate_comparisons [1, 2] [10] (by decide) (by decide)
    (by decide)).2.2.2.1

/-! The nonempty, gate-off unfolding of compare_parts, and the perfect-score
invariant of the Report.add accumulation. -/

theorem compare_parts_nonempty (cmp : JEnt → JEnt → Report) (self other : JEnt)
    (l1 l2 : List JEnt) (gate : Nat → Nat → Bool)
    (h1 : l1.isEmpty = false) (h2 : l2.isEmpty = false) :
    compare_parts cmp self other l1 l2 false gate =
      ((greedy (crossMatrix cmp l1 l2) l1 l2
          (Report.mk 0 0 self other [])).2.2).foldl
        (fun a u => a.add (Report.mk 0 10 JEnt.notFound u []))
        (((greedy (crossMatrix cmp l1 l2) l1 l2
            (Report.mk 0 0 self other [])).2.1).foldl
          (fun a u => a.add (Report.mk 0 10 u JEnt.notFound []))
          ((greedy (crossMatrix cmp l1 l2) l1 l2
            (Report.mk 0 0 self other [])).1)) := by
  unfold compare_parts
  rw [h1, h2]
  rfl

theorem add_tree100_invariant (acc m : Report) (hm : tree100 m = true)
    (hacc : (acc.probability = 100 ∧ 0 < acc.weight) ∨
      (acc.probability = 0 ∧ acc.weight = 0))
    (haccc : ∀ c ∈ acc.child_reports, tree100 c = true) :
    (((acc.add m).probability = 100 ∧ 0 < (acc.add m).weight) ∨
      ((acc.add m).probability = 0 ∧ (acc.add m).weight = 0)) ∧
    (∀ c ∈ (acc.add m).child_reports, tree100 c = true) := by
  obtain ⟨hmp, hmc⟩ := (tree100_iff m).mp hm
  constructor
  · rw [Report.add_probability, Report.add_weight]
    rcases hacc with ⟨hp, hw⟩ | ⟨hp, hw⟩
    · left
      refine ⟨?_, by omega⟩
      rw [hp, hmp, if_neg (by omega : ¬(acc.weight + m.weight = 0))]
      rw [← Nat.mul_add]
      exact Nat.mul_div_cancel _ (by omega)
    · rcases Nat.eq_zero_or_pos m.weight with hmw | hmw
      · right
        rw [hp, hw, hmw]
        simp
      · left
        refine ⟨?_, by omega⟩
        rw [hp, hw, hmp, if_neg (by omega : ¬(0 + m.weight = 0))]
        simp only [Nat.zero_mul, Nat.zero_add]
        exact Nat.mul_div_cancel _ hmw
  · rw [Report.add_child_reports]
    split_ifs with hc1 hc2
    · intro c hc
      rcases List.mem_append.mp hc with h | h
      · exact haccc c h
      · exact hmc c h
    · intro c hc
      rcases List.mem_append.mp hc with h | h
      · exact haccc c h
      · rw [List.mem_singleton.mp h]
        exact hm
    · exact haccc

theorem foldl_add_tree100 (ms : List Report) : ∀ (acc : Report),
    (∀ m ∈ ms, tree100 m = true) →
    ((acc.probability = 100 ∧ 0 < acc.weight) ∨
      (acc.probability = 0 ∧ acc.weight = 0)) →
    (∀ c ∈ acc.child_reports, tree100 c = true) →
    (((ms.foldl Report.add acc).probability = 100 ∧
        0 < (ms.foldl Report.add acc).weight) ∨
      ((ms.foldl Report.add acc).probability = 0 ∧
        (ms.foldl Report.add acc).weight = 0)) ∧
    (∀ c ∈ (ms.foldl Report.add acc).child_reports, tree100 c = true) := by
  induction ms with
  | nil => intro acc _ hacc haccc; exact ⟨hacc, haccc⟩
  | cons m ms ih =>
    intro acc h hacc haccc
    rw [List.foldl_cons]
    obtain ⟨h1, h2⟩ :=
      add_tree100_invariant acc m (h m (List.mem_cons_self _ _)) hacc haccc
    exact ih (acc.add m) (fun x hx => h x (List.mem_cons_of_mem _ hx)) h1 h2

/-- C3 counterexample: a project with no files compared with itself yields
the fresh zero report, whose probability is 0, not 100. -/
theorem C3_counterexample :
    JavaProject_compare (JEnt.javaProject 50 "Java" [])
        (JEnt.javaProject 50 "Java" []) false neverSkip =
      some (Report.mk 0 0 (JEnt.javaProject 50 "Java" [])
        (JEnt.javaProject 50 "Java" []) []) ∧
    (Report.mk 0 0 (JEnt.javaProject 50 "Java" [])
        (JEnt.javaProject 50 "Java" []) []).probability ≠ 100 :=
  ⟨rfl, by decide⟩

/-- C3 (amended): comparing a project with itself (fast_scan off) yields a
report, and that report together with its whole child tree has probability
100, provided every pairwise comparison of the project's files is a perfect
tree (probability 100 throughout) and at least one such comparison carries
positive weight. For a project with no files the self-comparison is the
zero report with probability 0. -/
theorem C3_amended (i : Nat) (t : String) (L : List JEnt)
    (gate : Nat → Nat → Bool)
    (hnodup : (L.map JEnt.entId).Nodup)
    (h100 : ∀ f1 ∈ L, ∀ f2 ∈ L, tree100 (compare f1 f2 false gate) = true)
    (hpos : ∃ f1 ∈ L, ∃ f2 ∈ L, 0 < (compare f1 f2 false gate).weight) :
    ∃ r, JavaProject_compare (JEnt.javaProject i t L)
        (JEnt.javaProject i t L) false gate = some r ∧ tree100 r = true := by
  obtain ⟨fa, hfa, fb, hfb, hwpos⟩ := hpos
  refine ⟨compare (JEnt.javaProject i t L) (JEnt.javaProject i t L)
    false gate, ?_, ?_⟩
  · show (if t ≠ t then (none : Option Report)
        else some (compare (JEnt.javaProject i t L) (JEnt.javaProject i t L)
          false gate)) = _
    rw [if_neg fun h => h rfl]
  · have hLne : L ≠ [] := fun h => by
      rw [h] at hfa; exact List.not_mem_nil fa hfa
    have hLe : L.isEmpty = false := by
      cases L with
      | nil => exact absurd rfl hLne
      | cons a l => rfl
    have hstep : compare (JEnt.javaProject i t L) (JEnt.javaProject i t L)
        false gate =
        compare_parts (compareGo (entSizeList L) false gate)
          (JEnt.javaProject i t L) (JEnt.javaProject i t L) L L
          false gate := rfl
    have hcmp : compare_parts (compareGo (entSizeList L) false gate)
          (JEnt.javaProject i t L) (JEnt.javaProject i t L) L L false gate =
        compare_parts (fun x y => compare x y false gate)
          (JEnt.javaProject i t L) (JEnt.javaProject i t L) L L false gate := by
      apply compare_parts_congr
      intro s hs o ho
      exact (compare_eq_compareGo (entSizeList L) s o false gate
        (entSize_le_of_mem hs)).symm
    obtain ⟨ms, su, ou, hgr, hlen, hmem, hsu, hou, hmax⟩ :=
      greedy_cross_spec (L.length + L.length) L L
        (fun x y => compare x y false gate)
        (Report.mk 0 0 (JEnt.javaProject i t L) (JEnt.javaProject i t L) [])
        (le_refl _) hnodup hnodup
        (fun s _ o _ => compare_first s o false gate)
    have hsue : su = [] := List.length_eq_zero.mp (by omega)
    subst hsue
    have houe : ou = [] := List.length_eq_zero.mp (by omega)
    subst houe
    have hunfold : compare_parts (fun x y => compare x y false gate)
          (JEnt.javaProject i t L) (JEnt.javaProject i t L) L L false gate =
        ms.foldl Report.add
          (Report.mk 0 0 (JEnt.javaProject i t L)
            (JEnt.javaProject i t L) []) := by
      rw [compare_parts_nonempty _ _ _ _ _ _ hLe hLe, hgr]
      rfl
    rw [hstep, hcmp, hunfold]
    have hms100 : ∀ m ∈ ms, tree100 m = true := by
      intro m hm
      obtain ⟨s, hs, o, ho, he⟩ := hmem m hm
      rw [he]
      exact h100 s hs o ho
    obtain ⟨hstate, hchild⟩ := foldl_add_tree100 ms
      (Report.mk 0 0 (JEnt.javaProject i t L) (JEnt.javaProject i t L) [])
      hms100 (Or.inr ⟨rfl, rfl⟩) (fun c hc => absurd hc (List.not_mem_nil c))
    have hmsne : ms ≠ [] := by
      intro h
      rw [h, List.length_nil, Nat.min_self] at hlen
      exact hLne (List.length_eq_zero.mp hlen.symm)
    rcases hmax with hnil | ⟨m0, ms2, hms0, hm0max⟩
    · exact absurd hnil hmsne
    have hm0mem : m0 ∈ ms := by rw [hms0]; exact List.mem_cons_self _ _
    have hm0p : m0.probability = 100 :=
      ((tree100_iff m0).mp (hms100 m0 hm0mem)).1
    have hemem : compare fa fb false gate ∈
        crossMatrix (fun x y => compare x y false gate) L L :=
      mem_crossMatrix.mpr ⟨fa, hfa, fb, hfb, rfl⟩
    have hep : (compare fa fb false gate).probability = 100 :=
      ((tree100_iff _).mp (h100 fa hfa fb hfb)).1
    have hlt := (Report.lt_false_iff m0 (compare fa fb false gate)).mp
      (hm0max _ hemem)
    have hm0w : 0 < m0.weight := by omega
    have hwsum := foldl_add_weight ms
      (Report.mk 0 0 (JEnt.javaProject i t L) (JEnt.javaProject i t L) [])
    have hm0le : m0.weight ≤ (ms.map Report.weight).sum :=
      List.single_le_sum (fun x _ => Nat.zero_le x) _
        (List.mem_map_of_mem Report.weight hm0mem)
    have haccw : (Report.mk 0 0 (JEnt.javaProject i t L)
        (JEnt.javaProject i t L) ([] : List Report)).weight = 0 := rfl
    rcases hstate with ⟨hP, _⟩ | ⟨_, hW⟩
    · exact (tree100_iff _).mpr ⟨hP, hchild⟩
    · omega

/-- A file holding one class with a single int member variable; its
self-comparison is a perfect tree of positive weight. -/
def c3file : JEnt :=
  JEnt.javaFile 4 [JEnt.javaClass 3
    [JEnt.javaVariable 2 [] (JEnt.javaType 1 (some "int") false [])] []]

/-- C3 witness: the single-file project built from c3file self-compares to a
report whose whole tree has probability 100. -/
theorem C3_witness :
    ∃ r, JavaProject_compare (JEnt.javaProject 5 "Java" [c3file])
        (JEnt.javaProject 5 "Java" [c3file]) false neverSkip = some r ∧
      tree100 r = true :=
  C3_amended 5 "Java" [c3file] neverSkip (by decide)
    (by
      intro f1 h1 f2 h2
      rw [List.mem_singleton.mp h1, List.mem_singleton.mp h2]
      decide)
    ⟨c3file, List.mem_singleton.mpr rfl, c3file, List.mem_singleton.mpr rfl,
      by decide⟩

/-! Fast-scan analysis: when the size gate never fires, the fast_scan flag
can only act through the method-interface threshold test of
JavaMethod.compare; if every cross-pair of methods clears the threshold,
fast and full scans coincide. -/

theorem compare_parts_gate_false (cmp : JEnt → JEnt → Report)
    (self other : JEnt) (l1 l2 : List JEnt) (fast fast2 : Bool)
    (gate : Nat → Nat → Bool) (hg : ∀ m k, gate m k = false) :
    compare_parts cmp self other l1 l2 fast gate =
      compare_parts cmp self other l1 l2 fast2 gate := by
  unfold compare_parts
  rw [hg l1.length l2.length, Bool.and_false, Bool.and_false]

theorem list_flatMap_congr {α β : Type} (l : List α) (f g : α → List β)
    (h : ∀ x ∈ l, f x = g x) : l.flatMap f = l.flatMap g := by
  induction l with
  | nil => rfl
  | cons a l ih =>
    rw [List.flatMap_cons, List.flatMap_cons, h a (List.mem_cons_self _ _),
      ih fun x hx => h x (List.mem_cons_of_mem _ hx)]

theorem childEnts_size {s a : JEnt} (h : s ∈ childEnts a) :
    entSize s < entSize a := by
  cases a with
  | javaModifier i nm => exact absurd h (List.not_mem_nil s)
  | javaType i nm ud non =>
    have h2 := entSize_le_of_mem (show s ∈ non from h)
    simp only [entSize]
    omega
  | javaVariable i mods t =>
    rcases List.mem_append.mp (show s ∈ mods ++ [t] from h) with h1 | h1
    · have h2 := entSize_le_of_mem h1
      simp only [entSize]
      omega
    · rw [List.mem_singleton.mp h1]
      simp only [entSize]
      omega
  | javaParameter i t =>
    rw [List.mem_singleton.mp (show s ∈ [t] from h)]
    simp only [entSize]
    omega
  | javaStatementBlock i parts => exact absurd h (List.not_mem_nil s)
  | javaMethod i rt args blocks =>
    rcases List.mem_cons.mp (show s ∈ rt :: (args ++ blocks) from h) with h1 | h1
    · rw [h1]
      simp only [entSize]
      omega
    · rcases List.mem_append.mp h1 with h2 | h2
      · have h3 := entSize_le_of_mem h2
        simp only [entSize]
        omega
      · have h3 := entSize_le_of_mem h2
        simp only [entSize]
        omega
  | javaClass i vars meths =>
    rcases List.mem_append.mp (show s ∈ vars ++ meths from h) with h1 | h1
    · have h2 := entSize_le_of_mem h1
      simp only [entSize]
      omega
    · have h2 := entSize_le_of_mem h1
      simp only [entSize]
      omega
  | javaFile i cls =>
    have h2 := entSize_le_of_mem (show s ∈ cls from h)
    simp only [entSize]
    omega
  | javaProject i t fs =>
    have h2 := entSize_le_of_mem (show s ∈ fs from h)
    simp only [entSize]
    omega
  | notFound => exact absurd h (List.not_mem_nil s)

theorem allMethodsGo_congr (n : Nat) :
    ∀ (n2 : Nat) (e : JEnt), entSize e ≤ n → entSize e ≤ n2 →
      allMethodsGo n e = allMethodsGo n2 e := by
  induction n using Nat.strong_induction_on with
  | _ n ih =>
    intro n2 e h h2
    have hp := entSize_pos e
    have h3 : 1 ≤ n := le_trans hp h
    have h4 : 1 ≤ n2 := le_trans hp h2
    match n, h3, h with
    | Nat.succ k, _, hk =>
    match n2, h4, h2 with
    | Nat.succ k2, _, hk2 =>
    simp only [allMethodsGo]
    congr 1
    apply list_flatMap_congr
    intro x hx
    have hs := childEnts_size hx
    exact ih k (Nat.lt_succ_self k) k2 x (by omega) (by omega)

theorem allMethods_trans {a s m : JEnt} (hs : s ∈ childEnts a)
    (hm : m ∈ allMethods s) : m ∈ allMethods a := by
  obtain ⟨k, hk⟩ : ∃ k, entSize a = k + 1 :=
    ⟨entSize a - 1, by have := entSize_pos a; omega⟩
  have hsz : entSize s ≤ k := by
    have := childEnts_size hs
    omega
  have he : allMethods a = allMethodsGo (k + 1) a := by
    rw [allMethods, hk]
  rw [he]
  simp only [allMethodsGo]
  apply List.mem_append.mpr
  right
  apply List.mem_flatMap.mpr
  refine ⟨s, hs, ?_⟩
  have he2 : allMethodsGo (entSize s) s = allMethodsGo k s :=
    allMethodsGo_congr (entSize s) k s (le_refl _) hsz
  rw [← he2]
  exact hm

theorem method_mem_allMethods (i : Nat) (rt : JEnt) (args blocks : List JEnt) :
    JEnt.javaMethod i rt args blocks ∈
      allMethods (JEnt.javaMethod i rt args blocks) := by
  rw [allMethods]
  exact List.mem_append.mpr (Or.inl (List.mem_singleton.mpr rfl))

theorem compare_parts_fast_eq (k : Nat) (gate : Nat → Nat → Bool)
    (a b : JEnt) (l1 l2 : List JEnt)
    (hg : ∀ m n2, gate m n2 = false)
    (hel : ∀ s ∈ l1, ∀ o ∈ l2,
      compareGo k true gate s o = compareGo k false gate s o) :
    compare_parts (compareGo k true gate) a b l1 l2 true gate =
      compare_parts (compareGo k false gate) a b l1 l2 false gate := by
  calc compare_parts (compareGo k true gate) a b l1 l2 true gate
      = compare_parts (compareGo k false gate) a b l1 l2 true gate :=
        compare_parts_congr _ _ _ _ _ _ _ _ hel
    _ = compare_parts (compareGo k false gate) a b l1 l2 false gate :=
        compare_parts_gate_false _ _ _ _ _ _ _ _ hg

theorem method_branch_eq (R1 R2 B1 B2 : Report) (hR : R1 = R2) (hB : B1 = B2)
    (hcond : method_interface_threshold < R2.probability) :
    (if (!true || decide (R1.probability > method_interface_threshold)) = true
      then R1.add B1 else R1) =
    (if (!false || decide (R2.probability > method_interface_threshold)) = true
      then R2.add B2 else R2) := by
  subst hR
  subst hB
  have hd : decide (R1.probability > method_interface_threshold) = true :=
    decide_eq_true hcond
  rw [hd]
  rfl

theorem compareGo_fast_eq (n : Nat) :
    ∀ (gate : Nat → Nat → Bool) (a b : JEnt),
      entSize a ≤ n →
      (∀ m1 m2, gate m1 m2 = false) →
      (∀ m1 ∈ allMethods a, ∀ m2 ∈ allMethods b,
        method_interface_threshold < (methodInterface gate m1 m2).probability) →
      compareGo n true gate a b = compareGo n false gate a b := by
  induction n using Nat.strong_induction_on with
  | _ n ih =>
    intro gate a b h hgate hth
    have hp := entSize_pos a
    have h3 : 1 ≤ n := le_trans hp h
    match n, h3, h with
    | Nat.succ k, _, hk =>
    clear h3
    have hih : ∀ x ∈ childEnts a, ∀ y ∈ childEnts b,
        compareGo k true gate x y = compareGo k false gate x y := by
      intro x hx y hy
      apply ih k (Nat.lt_succ_self k) gate x y
      · have := childEnts_size hx
        omega
      · exact hgate
      · intro m1 hm1 m2 hm2
        exact hth m1 (allMethods_trans hx hm1) m2 (allMethods_trans hy hm2)
    cases a with
    | javaModifier i s => cases b <;> rfl
    | javaType i nm ud non =>
      cases b <;> try rfl
      case javaType i2 nm2 ud2 non2 =>
        have hcp : compare_parts (compareGo k true gate)
            (JEnt.javaType i nm ud non) (JEnt.javaType i2 nm2 ud2 non2)
            non non2 true gate =
            compare_parts (compareGo k false gate)
            (JEnt.javaType i nm ud non) (JEnt.javaType i2 nm2 ud2 non2)
            non non2 false gate :=
          compare_parts_fast_eq k gate _ _ non non2 hgate
            fun x hx y hy => hih x hx y hy
        show (if _ then _ else _) = (if _ then _ else _)
        rw [hcp]
    | javaVariable i mods t =>
      cases b <;> try rfl
      case javaVariable i2 mods2 t2 =>
        have hcp : compare_parts (compareGo k true gate)
            (JEnt.javaVariable i mods t) (JEnt.javaVariable i2 mods2 t2)
            mods mods2 true gate =
            compare_parts (compareGo k false gate)
            (JEnt.javaVariable i mods t) (JEnt.javaVariable i2 mods2 t2)
            mods mods2 false gate :=
          compare_parts_fast_eq k gate _ _ mods mods2 hgate
            fun x hx y hy => hih x (List.mem_append.mpr (Or.inl hx))
              y (List.mem_append.mpr (Or.inl hy))
        have ht : compareGo k true gate t t2 = compareGo k false gate t t2 :=
          hih t (List.mem_append.mpr (Or.inr (List.mem_singleton.mpr rfl)))
            t2 (List.mem_append.mpr (Or.inr (List.mem_singleton.mpr rfl)))
        show (compare_parts _ _ _ _ _ _ _).add _ =
          (compare_parts _ _ _ _ _ _ _).add _
        rw [hcp, ht]
    | javaParameter i t =>
      cases b <;> try rfl
      case javaParameter i2 t2 =>
        have ht : compareGo k true gate t t2 = compareGo k false gate t t2 :=
          hih t (List.mem_singleton.mpr rfl) t2 (List.mem_singleton.mpr rfl)
        show compare_parts_single _ _ _ = compare_parts_single _ _ _
        rw [ht]
    | javaStatementBlock i parts => cases b <;> rfl
    | javaMethod i rt args blocks =>
      cases b <;> try rfl
      case javaMethod i2 rt2 args2 blocks2 =>
        have hsz : entSize rt ≤ k ∧ entSizeList args ≤ k := by
          simp [entSize] at hk
          omega
        have hrt : compareGo k true gate rt rt2 =
            compareGo k false gate rt rt2 :=
          hih rt (List.mem_cons_self _ _) rt2 (List.mem_cons_self _ _)
        have hargs := compare_parts_fast_eq k gate
          (JEnt.javaMethod i rt args blocks)
          (JEnt.javaMethod i2 rt2 args2 blocks2) args args2 hgate
          fun x hx y hy =>
            hih x (List.mem_cons_of_mem _ (List.mem_append.mpr (Or.inl hx)))
              y (List.mem_cons_of_mem _ (List.mem_append.mpr (Or.inl hy)))
        have hblocks := compare_parts_fast_eq k gate
          (JEnt.javaMethod i rt args blocks)
          (JEnt.javaMethod i2 rt2 args2 blocks2) blocks blocks2 hgate
          fun x hx y hy =>
            hih x (List.mem_cons_of_mem _ (List.mem_append.mpr (Or.inr hx)))
              y (List.mem_cons_of_mem _ (List.mem_append.mpr (Or.inr hy)))
        have hlink : (compare_parts_single (JEnt.javaMethod i rt args blocks)
              (JEnt.javaMethod i2 rt2 args2 blocks2)
              (compareGo k false gate rt rt2)).add
              (compare_parts (compareGo k false gate)
                (JEnt.javaMethod i rt args blocks)
                (JEnt.javaMethod i2 rt2 args2 blocks2) args args2 false gate) =
            methodInterface gate (JEnt.javaMethod i rt args blocks)
              (JEnt.javaMethod i2 rt2 args2 blocks2) := by
          show _ = (compare_parts_single (JEnt.javaMethod i rt args blocks)
              (JEnt.javaMethod i2 rt2 args2 blocks2)
              (compare rt rt2 false gate)).add
            (compare_parts (fun x y => compare x y false gate)
              (JEnt.javaMethod i rt args blocks)
              (JEnt.javaMethod i2 rt2 args2 blocks2) args args2 false gate)
          rw [compare_eq_compareGo k rt rt2 false gate hsz.1]
          rw [compare_parts_congr (fun x y => compare x y false gate)
            (compareGo k false gate) (JEnt.javaMethod i rt args blocks)
            (JEnt.javaMethod i2 rt2 args2 blocks2) args args2 false gate
            fun s hs o ho => compare_eq_compareGo k s o false gate
              (le_trans (entSize_le_of_mem hs) hsz.2)]
        have hmi : method_interface_threshold <
            (methodInterface gate (JEnt.javaMethod i rt args blocks)
              (JEnt.javaMethod i2 rt2 args2 blocks2)).probability :=
          hth _ (method_mem_allMethods i rt args blocks) _
            (method_mem_allMethods i2 rt2 args2 blocks2)
        have hcond := hlink.symm ▸ hmi
        exact method_branch_eq
          ((compare_parts_single (JEnt.javaMethod i rt args blocks)
              (JEnt.javaMethod i2 rt2 args2 blocks2)
              (compareGo k true gate rt rt2)).add
            (compare_parts (compareGo k true gate)
              (JEnt.javaMethod i rt args blocks)
              (JEnt.javaMethod i2 rt2 args2 blocks2) args args2 true gate))
          ((compare_parts_single (JEnt.javaMethod i rt args blocks)
              (JEnt.javaMethod i2 rt2 args2 blocks2)
              (compareGo k false gate rt rt2)).add
            (compare_parts (compareGo k false gate)
              (JEnt.javaMethod i rt args blocks)
              (JEnt.javaMethod i2 rt2 args2 blocks2) args args2 false gate))
          (compare_parts (compareGo k true gate)
            (JEnt.javaMethod i rt args blocks)
            (JEnt.javaMethod i2 rt2 args2 blocks2) blocks blocks2 true gate)
          (compare_parts (compareGo k false gate)
            (JEnt.javaMethod i rt args blocks)
            (JEnt.javaMethod i2 rt2 args2 blocks2) blocks blocks2 false gate)
          (by rw [hrt, hargs]) hblocks hcond
    | javaClass i vars meths =>
      cases b <;> try rfl
      case javaClass i2 vars2 meths2 =>
        have hvars := compare_parts_fast_eq k gate (JEnt.javaClass i vars meths)
          (JEnt.javaClass i2 vars2 meths2) vars vars2 hgate
          fun x hx y hy => hih x (List.mem_append.mpr (Or.inl hx))
            y (List.mem_append.mpr (Or.inl hy))
        have hmeths := compare_parts_fast_eq k gate (JEnt.javaClass i vars meths)
          (JEnt.javaClass i2 vars2 meths2) meths meths2 hgate
          fun x hx y hy => hih x (List.mem_append.mpr (Or.inr hx))
            y (List.mem_append.mpr (Or.inr hy))
        show (compare_parts _ _ _ _ _ _ _).add _ =
          (compare_parts _ _ _ _ _ _ _).add _
        rw [hvars, hmeths]
    | javaFile i cls =>
      cases b <;> try rfl
      case javaFile i2 cls2 =>
        exact compare_parts_fast_eq k gate (JEnt.javaFile i cls)
          (JEnt.javaFile i2 cls2) cls cls2 hgate
          fun x hx y hy => hih x hx y hy
    | javaProject i t fs =>
      cases b <;> try rfl
      case javaProject i2 t2 fs2 =>
        exact compare_parts_fast_eq k gate (JEnt.javaProject i t fs)
          (JEnt.javaProject i2 t2 fs2) fs fs2 hgate
          fun x hx y hy => hih x hx y hy
    | notFound => cases b <;> rfl

/-- A method returning int with one return-statement block; its interface
score against c5mB is 50, below the threshold. -/
def c5mA : JEnt :=
  JEnt.javaMethod 10 (JEnt.javaType 11 (some "int") false []) []
    [JEnt.javaStatementBlock 12 [(NodeKind.returnStatement, 1)]]

/-- A method returning Integer with one variable-declaration block. -/
def c5mB : JEnt :=
  JEnt.javaMethod 20 (JEnt.javaType 21 (some "Integer") false []) []
    [JEnt.javaStatementBlock 22 [(NodeKind.localVariableDeclaration, 1)]]

/-- A single-class, single-method project around c5mA. -/
def c5pA : JEnt :=
  JEnt.javaProject 1 "Java" [JEnt.javaFile 2 [JEnt.javaClass 3 [] [c5mA]]]

/-- A single-class, single-method project around c5mB. -/
def c5pB : JEnt :=
  JEnt.javaProject 5 "Java" [JEnt.javaFile 6 [JEnt.javaClass 7 [] [c5mB]]]

/-- C5 counterexample: on the projects c5pA and c5pB (whose sole methods have
interface score 50, at most the threshold 80) the full scan scores 25 while
the fast scan, skipping the mismatching statement blocks, scores 50: the
fast-scan score strictly exceeds the full score, refuting fast-scan
soundness. -/
theorem C5_counterexample :
    (JavaProject_compare c5pA c5pB false neverSkip).map Report.probability =
      some 25 ∧
    (JavaProject_compare c5pA c5pB true neverSkip).map Report.probability =
      some 50 ∧
    (25 : Nat) < 50 :=
  ⟨rfl, rfl, by decide⟩

/-- C5 (amended): fast scanning is score-neutral, rather than sound, under
the conditions that make it skip nothing: if the size gate never fires and
every pair of methods of the two projects exceeds the method-interface
threshold, comparison with fast_scan = true returns exactly the comparison
with fast_scan = false; without those conditions the fast-scan score can
strictly exceed the full score (C5_counterexample). -/
theorem C5_amended (p q : JEnt) (gate : Nat → Nat → Bool)
    (hgate : ∀ m k, gate m k = false)
    (hth : ∀ m1 ∈ allMethods p, ∀ m2 ∈ allMethods q,
      method_interface_threshold < (methodInterface gate m1 m2).probability) :
    JavaProject_compare p q false gate = JavaProject_compare p q true gate := by
  cases p <;> cases q <;> try rfl
  case javaProject.javaProject i t fs i2 t2 fs2 =>
    show (if t ≠ t2 then (none : Option Report)
        else some (compare (JEnt.javaProject i t fs)
          (JEnt.javaProject i2 t2 fs2) false gate)) =
      (if t ≠ t2 then (none : Option Report)
        else some (compare (JEnt.javaProject i t fs)
          (JEnt.javaProject i2 t2 fs2) true gate))
    by_cases hT : t ≠ t2
    · rw [if_pos hT, if_pos hT]
    · rw [if_neg hT, if_neg hT]
      exact congrArg some
        (compareGo_fast_eq (entSize (JEnt.javaProject i t fs)) gate
          (JEnt.javaProject i t fs) (JEnt.javaProject i2 t2 fs2)
          (le_refl _) hgate hth).symm

/-- C5 witness: a self-comparison of c5pA, whose only method pair has
interface score 100 above the threshold, gives identical fast and full
reports. -/
theorem C5_witness :
    JavaProject_compare c5pA c5pA false neverSkip =
      JavaProject_compare c5pA c5pA true neverSkip :=
  C5_amended c5pA c5pA neverSkip (fun _ _ => rfl)
    (by
      intro m1 h1 m2 h2
      have h1b : m1 ∈ [c5mA] := h1
      have h2b : m2 ∈ [c5mA] := h2
      rw [List.mem_singleton.mp h1b, List.mem_singleton.mp h2b]
      decide)

/-! Score symmetry: the value (probability, weight) of a report, the
penalty-step action on values, and a bisimulation of the greedy assignment
run in the two argument orders. -/

/-- The score-relevant value of a report: its probability and weight. -/
def rval (r : Report) : Nat × Nat := (r.probability, r.weight)

theorem rval_eq_iff (x y : Report) :
    rval x = rval y ↔
      (x.probability = y.probability ∧ x.weight = y.weight) := by
  unfold rval
  constructor
  · intro h
    exact ⟨congrArg Prod.fst h, congrArg Prod.snd h⟩
  · intro h
    rw [h.1, h.2]

theorem add_rval_congr (a a2 b b2 : Report) (ha : rval a2 = rval a)
    (hb : rval b2 = rval b) : rval (a2.add b2) = rval (a.add b) := by
  obtain ⟨ha1, ha2⟩ := (rval_eq_iff _ _).mp ha
  obtain ⟨hb1, hb2⟩ := (rval_eq_iff _ _).mp hb
  apply (rval_eq_iff _ _).mpr
  constructor
  · rw [Report.add_probability, Report.add_probability, ha1, ha2, hb1, hb2]
  · rw [Report.add_weight, Report.add_weight, ha2, hb2]

/-- The action of one NotFound penalty on a report value. -/
def penStep (v : Nat × Nat) : Nat × Nat :=
  (v.1 * v.2 / (v.2 + 10), v.2 + 10)

theorem penalty_add_rval (a b : Report) (hp : b.probability = 0)
    (hw : b.weight = 10) : rval (a.add b) = penStep (rval a) := by
  unfold rval penStep
  rw [Report.add_probability, Report.add_weight, hp, hw]
  rw [if_neg (by omega : ¬(a.weight + 10 = 0))]
  simp

/-- Iterated penalty action. -/
def penIter : Nat → Nat × Nat → Nat × Nat
  | 0, v => v
  | n + 1, v => penIter n (penStep v)

theorem penIter_add (a b : Nat) : ∀ (v : Nat × Nat),
    penIter a (penIter b v) = penIter (b + a) v := by
  induction b with
  | zero =>
    intro v
    rw [Nat.zero_add]
    rfl
  | succ b ih =>
    intro v
    have h1 : b + 1 + a = (b + a) + 1 := by omega
    rw [h1]
    show penIter a (penIter b (penStep v)) = penIter (b + a) (penStep v)
    exact ih (penStep v)

theorem penIter_comm (a b : Nat) (v : Nat × Nat) :
    penIter a (penIter b v) = penIter b (penIter a v) := by
  rw [penIter_add a b v, penIter_add b a v, Nat.add_comm]

theorem foldl_selfPenalty_rval (l : List JEnt) : ∀ (acc : Report),
    rval (l.foldl (fun a u => a.add (Report.mk 0 10 u JEnt.notFound [])) acc) =
      penIter l.length (rval acc) := by
  induction l with
  | nil => intro acc; rfl
  | cons u l ih =>
    intro acc
    rw [List.foldl_cons, ih,
      penalty_add_rval acc (Report.mk 0 10 u JEnt.notFound []) rfl rfl]
    rfl

theorem foldl_otherPenalty_rval (l : List JEnt) : ∀ (acc : Report),
    rval (l.foldl (fun a u => a.add (Report.mk 0 10 JEnt.notFound u [])) acc) =
      penIter l.length (rval acc) := by
  induction l with
  | nil => intro acc; rfl
  | cons u l ih =>
    intro acc
    rw [List.foldl_cons, ih,
      penalty_add_rval acc (Report.mk 0 10 JEnt.notFound u []) rfl rfl]
    rfl

/-! The greedy assignment, run on the transposed matrix with value-equal
entries and no ties among the values, commits value-equal reports in the
same order and leaves the two unmatched lists swapped. -/

theorem greedy_sym (n : Nat) :
    ∀ (l1 l2 : List JEnt) (cmp cmp2 : JEnt → JEnt → Report)
      (acc acc2 : Report),
      l1.length + l2.length ≤ n →
      (l1.map JEnt.entId).Nodup → (l2.map JEnt.entId).Nodup →
      (∀ s ∈ l1, ∀ o ∈ l2, (cmp s o).first = s ∧ (cmp s o).second = o) →
      (∀ o ∈ l2, ∀ s ∈ l1, (cmp2 o s).first = o ∧ (cmp2 o s).second = s) →
      (∀ s ∈ l1, ∀ o ∈ l2, rval (cmp2 o s) = rval (cmp s o)) →
      ((crossMatrix cmp l1 l2).map rval).Nodup →
      rval acc2 = rval acc →
      ∃ r su ou r2 su2 ou2,
        greedy (crossMatrix cmp l1 l2) l1 l2 acc = (r, su, ou) ∧
        greedy (crossMatrix cmp2 l2 l1) l2 l1 acc2 = (r2, su2, ou2) ∧
        rval r2 = rval r ∧ su2.length = ou.length ∧
        ou2.length = su.length := by
  induction n with
  | zero =>
    intro l1 l2 cmp cmp2 acc acc2 hn h1 h2 hfs hfs2 hsym hvnd hacc
    have he1 : l1 = [] := List.length_eq_zero.mp (by omega)
    have he2 : l2 = [] := List.length_eq_zero.mp (by omega)
    subst he1
    subst he2
    exact ⟨acc, [], [], acc2, [], [], rfl, rfl, hacc, rfl, rfl⟩
  | succ n ih =>
    intro l1 l2 cmp cmp2 acc acc2 hn h1 h2 hfs hfs2 hsym hvnd hacc
    cases l1 with
    | nil =>
      refine ⟨acc, [], l2, acc2, l2, [], ?_, ?_, hacc, rfl, rfl⟩
      · rw [crossMatrix_nil_left]
        rfl
      · rw [crossMatrix_nil_right]
        rfl
    | cons s l1t =>
      cases l2 with
      | nil =>
        refine ⟨acc, s :: l1t, [], acc2, [], s :: l1t, ?_, ?_, hacc, rfl, rfl⟩
        · rw [crossMatrix_nil_right]
          rfl
        · rw [crossMatrix_nil_left]
          rfl
      | cons o l2t =>
        set m := firstMax (cmp s o)
          (l2t.map (cmp s) ++ crossMatrix cmp l1t (o :: l2t)) with hmdef
        have hmem1 : m ∈ crossMatrix cmp (s :: l1t) (o :: l2t) := by
          rw [crossMatrix_cons_cons]
          exact firstMax_mem _ _
        obtain ⟨s0, hs0, o0, ho0, hmeq⟩ := mem_crossMatrix.mp hmem1
        have hmf : m.first = s0 := by
          rw [hmeq]
          exact (hfs s0 hs0 o0 ho0).1
        have hms : m.second = o0 := by
          rw [hmeq]
          exact (hfs s0 hs0 o0 ho0).2
        have hmmax : ∀ x ∈ crossMatrix cmp (s :: l1t) (o :: l2t),
            m.lt x = false := by
          intro x hx
          rw [crossMatrix_cons_cons] at hx
          exact firstMax_maximal _ _ x hx
        set m2 := firstMax (cmp2 o s)
          (l1t.map (cmp2 o) ++ crossMatrix cmp2 l2t (s :: l1t)) with hm2def
        have hmem2 : m2 ∈ crossMatrix cmp2 (o :: l2t) (s :: l1t) := by
          rw [crossMatrix_cons_cons]
          exact firstMax_mem _ _
        obtain ⟨o2, ho2, s2, hs2, hm2eq⟩ := mem_crossMatrix.mp hmem2
        have hm2max : ∀ x ∈ crossMatrix cmp2 (o :: l2t) (s :: l1t),
            m2.lt x = false := by
          intro x hx
          rw [crossMatrix_cons_cons] at hx
          exact firstMax_maximal _ _ x hx
        have hv1 : rval m2 = rval (cmp s2 o2) := by
          rw [hm2eq]
          exact hsym s2 hs2 o2 ho2
        have hx1 : cmp s2 o2 ∈ crossMatrix cmp (s :: l1t) (o :: l2t) :=
          mem_crossMatrix.mpr ⟨s2, hs2, o2, ho2, rfl⟩
        have hlt1 := (Report.lt_false_iff _ _).mp (hmmax _ hx1)
        have hx2 : cmp2 o0 s0 ∈ crossMatrix cmp2 (o :: l2t) (s :: l1t) :=
          mem_crossMatrix.mpr ⟨o0, ho0, s0, hs0, rfl⟩
        have hlt2 := (Report.lt_false_iff _ _).mp (hm2max _ hx2)
        have hv2 : rval (cmp2 o0 s0) = rval m := by
          rw [hmeq]
          exact hsym s0 hs0 o0 ho0
        obtain ⟨e1, e2⟩ := (rval_eq_iff _ _).mp hv1
        obtain ⟨e3, e4⟩ := (rval_eq_iff _ _).mp hv2
        have hvm : rval m2 = rval m :=
          (rval_eq_iff _ _).mpr ⟨by omega, by omega⟩
        have helem : cmp s2 o2 = m :=
          List.inj_on_of_nodup_map hvnd hx1 hmem1 (hv1.symm.trans hvm)
        have hs2eq : s2 = s0 := by
          have hfst := congrArg Report.first helem
          rw [(hfs s2 hs2 o2 ho2).1, hmf] at hfst
          exact hfst
        have ho2eq : o2 = o0 := by
          have hsnd := congrArg Report.second helem
          rw [(hfs s2 hs2 o2 ho2).2, hms] at hsnd
          exact hsnd
        have hm2f : m2.first = o0 := by
          rw [hm2eq, ho2eq, hs2eq]
          exact (hfs2 o0 ho0 s0 hs0).1
        have hm2s : m2.second = s0 := by
          rw [hm2eq, ho2eq, hs2eq]
          exact (hfs2 o0 ho0 s0 hs0).2
        have hfilter1 : ((crossMatrix cmp (s :: l1t) (o :: l2t)).filter
            fun x => !(m.second.entId == x.second.entId
              || m.first.entId == x.first.entId)) =
            crossMatrix cmp
              ((s :: l1t).filter fun x => !(s0.entId == x.entId))
              ((o :: l2t).filter fun x => !(o0.entId == x.entId)) := by
          rw [hmf, hms]
          exact crossMatrix_filter cmp (s :: l1t) (o :: l2t) s0 o0 hfs
        have hfilter2 : ((crossMatrix cmp2 (o :: l2t) (s :: l1t)).filter
            fun x => !(m2.second.entId == x.second.entId
              || m2.first.entId == x.first.entId)) =
            crossMatrix cmp2
              ((o :: l2t).filter fun x => !(o0.entId == x.entId))
              ((s :: l1t).filter fun x => !(s0.entId == x.entId)) := by
          rw [hm2f, hm2s]
          exact crossMatrix_filter cmp2 (o :: l2t) (s :: l1t) o0 s0 hfs2
        have herase1a : ((s :: l1t).eraseP
            fun x => x.entId == m.first.entId) =
            (s :: l1t).filter fun x => !(s0.entId == x.entId) := by
          rw [hmf]
          exact eraseP_eq_filter_ids _ _ h1 hs0
        have herase1b : ((o :: l2t).eraseP
            fun x => x.entId == m.second.entId) =
            (o :: l2t).filter fun x => !(o0.entId == x.entId) := by
          rw [hms]
          exact eraseP_eq_filter_ids _ _ h2 ho0
        have herase2a : ((o :: l2t).eraseP
            fun x => x.entId == m2.first.entId) =
            (o :: l2t).filter fun x => !(o0.entId == x.entId) := by
          rw [hm2f]
          exact eraseP_eq_filter_ids _ _ h2 ho0
        have herase2b : ((s :: l1t).eraseP
            fun x => x.entId == m2.second.entId) =
            (s :: l1t).filter fun x => !(s0.entId == x.entId) := by
          rw [hm2s]
          exact eraseP_eq_filter_ids _ _ h1 hs0
        set l1f := (s :: l1t).filter fun x => !(s0.entId == x.entId) with hl1f
        set l2f := (o :: l2t).filter fun x => !(o0.entId == x.entId) with hl2f
        have hstep1 : greedy (crossMatrix cmp (s :: l1t) (o :: l2t))
            (s :: l1t) (o :: l2t) acc =
            greedy (crossMatrix cmp l1f l2f) l1f l2f (acc.add m) := by
          rw [crossMatrix_cons_cons, greedy_cons, ← hmdef,
            ← crossMatrix_cons_cons, hfilter1, herase1a, herase1b]
        have hstep2 : greedy (crossMatrix cmp2 (o :: l2t) (s :: l1t))
            (o :: l2t) (s :: l1t) acc2 =
            greedy (crossMatrix cmp2 l2f l1f) l2f l1f (acc2.add m2) := by
          rw [crossMatrix_cons_cons, greedy_cons, ← hm2def,
            ← crossMatrix_cons_cons, hfilter2, herase2a, herase2b]
        have hlen1 : l1f.length = (s :: l1t).length - 1 :=
          filter_ids_length _ _ h1 hs0
        have hlen2 : l2f.length = (o :: l2t).length - 1 :=
          filter_ids_length _ _ h2 ho0
        have hsub1 : ∀ x ∈ l1f, x ∈ s :: l1t :=
          fun x hx => List.mem_of_mem_filter hx
        have hsub2 : ∀ x ∈ l2f, x ∈ o :: l2t :=
          fun x hx => List.mem_of_mem_filter hx
        have hvndsub : ((crossMatrix cmp l1f l2f).map rval).Nodup := by
          have hfe : crossMatrix cmp l1f l2f =
              (crossMatrix cmp (s :: l1t) (o :: l2t)).filter fun x =>
                !(o0.entId == x.second.entId || s0.entId == x.first.entId) :=
            (crossMatrix_filter cmp (s :: l1t) (o :: l2t) s0 o0 hfs).symm
          rw [hfe]
          exact List.Nodup.sublist
            (List.Sublist.map rval (List.filter_sublist _)) hvnd
        obtain ⟨r, su, ou, r2, su2, ou2, hg1, hg2, hvr, hL1, hL2⟩ :=
          ih l1f l2f cmp cmp2 (acc.add m) (acc2.add m2)
            (by
              rw [hlen1, hlen2]
              simp only [List.length_cons] at hn ⊢
              omega)
            (filter_ids_nodup _ _ h1) (filter_ids_nodup _ _ h2)
            (fun x hx y hy => hfs x (hsub1 x hx) y (hsub2 y hy))
            (fun y hy x hx => hfs2 y (hsub2 y hy) x (hsub1 x hx))
            (fun x hx y hy => hsym x (hsub1 x hx) y (hsub2 y hy))
            hvndsub
            (add_rval_congr acc acc2 m m2 hacc hvm)
        exact ⟨r, su, ou, r2, su2, ou2, by rw [hstep1]; exact hg1,
          by rw [hstep2]; exact hg2, hvr, hL1, hL2⟩

/-- A method with an int return type and a single if-statement block. -/
def c4mX : JEnt :=
  JEnt.javaMethod 10 (JEnt.javaType 11 (some "int") false []) []
    [JEnt.javaStatementBlock 12 [(NodeKind.ifStatement, 1)]]

/-- A method with an int return type, one if-statement and one
try-statement. -/
def c4mY : JEnt :=
  JEnt.javaMethod 20 (JEnt.javaType 21 (some "int") false []) []
    [JEnt.javaStatementBlock 22
      [(NodeKind.ifStatement, 1), (NodeKind.tryStatement, 1)]]

/-- A single-class, single-method project around c4mX. -/
def c4pX : JEnt :=
  JEnt.javaProject 1 "Java" [JEnt.javaFile 2 [JEnt.javaClass 3 [] [c4mX]]]

/-- A single-class, single-method project around c4mY. -/
def c4pY : JEnt :=
  JEnt.javaProject 5 "Java" [JEnt.javaFile 6 [JEnt.javaClass 7 [] [c4mY]]]

/-- C4 counterexample: the statement-block comparator walks only the left
histogram, so compare(c4pX, c4pY) scores 100 (the if-statements match and
the extra try-statement of c4pY is never consulted) while compare(c4pY,
c4pX) scores 66: the score is not symmetric. -/
theorem C4_counterexample :
    (JavaProject_compare c4pX c4pY false neverSkip).map Report.probability =
      some 100 ∧
    (JavaProject_compare c4pY c4pX false neverSkip).map Report.probability =
      some 66 ∧
    (66 : Nat) ≠ 100 :=
  ⟨rfl, rfl, by decide⟩

/-- C4 (amended): at the compare_parts level, the aggregate score is
symmetric whenever the element comparisons themselves are value-symmetric
and no two entries of the comparison matrix tie on (probability, weight):
swapping the two lists (and the element comparator for its transpose)
yields a report with the same probability and weight. Statement-block
comparisons violate value-symmetry (C4_counterexample), and with ties the
greedy assignment may commit different pairs in the two orders, so both
hypotheses are needed. -/
theorem C4_amended (cmp cmp2 : JEnt → JEnt → Report) (self other : JEnt)
    (l1 l2 : List JEnt) (gate gate2 : Nat → Nat → Bool)
    (h1 : (l1.map JEnt.entId).Nodup) (h2 : (l2.map JEnt.entId).Nodup)
    (hfs : ∀ s ∈ l1, ∀ o ∈ l2, (cmp s o).first = s ∧ (cmp s o).second = o)
    (hfs2 : ∀ o ∈ l2, ∀ s ∈ l1, (cmp2 o s).first = o ∧ (cmp2 o s).second = s)
    (hsym : ∀ s ∈ l1, ∀ o ∈ l2, rval (cmp2 o s) = rval (cmp s o))
    (hnoties : ((crossMatrix cmp l1 l2).map rval).Nodup) :
    rval (compare_parts cmp2 other self l2 l1 false gate2) =
      rval (compare_parts cmp self other l1 l2 false gate) := by
  cases l1 with
  | nil =>
    unfold compare_parts
    rw [List.isEmpty_nil, Bool.or_true, Bool.true_or]
    rfl
  | cons s l1t =>
    cases l2 with
    | nil =>
      unfold compare_parts
      rw [List.isEmpty_nil, Bool.or_true, Bool.true_or]
      rfl
    | cons o l2t =>
      have he1 : (s :: l1t).isEmpty = false := rfl
      have he2 : (o :: l2t).isEmpty = false := rfl
      rw [compare_parts_nonempty cmp self other (s :: l1t) (o :: l2t)
        gate he1 he2]
      rw [compare_parts_nonempty cmp2 other self (o :: l2t) (s :: l1t)
        gate2 he2 he1]
      obtain ⟨r, su, ou, r2, su2, ou2, hg1, hg2, hvr, hL1, hL2⟩ :=
        greedy_sym ((s :: l1t).length + (o :: l2t).length) (s :: l1t)
          (o :: l2t) cmp cmp2 (Report.mk 0 0 self other [])
          (Report.mk 0 0 other self []) (le_refl _) h1 h2 hfs hfs2 hsym
          hnoties rfl
      have e1 : (greedy (crossMatrix cmp (s :: l1t) (o :: l2t)) (s :: l1t)
          (o :: l2t) (Report.mk 0 0 self other [])).1 = r := by rw [hg1]
      have e2 : (greedy (crossMatrix cmp (s :: l1t) (o :: l2t)) (s :: l1t)
          (o :: l2t) (Report.mk 0 0 self other [])).2.1 = su := by rw [hg1]
      have e3 : (greedy (crossMatrix cmp (s :: l1t) (o :: l2t)) (s :: l1t)
          (o :: l2t) (Report.mk 0 0 self other [])).2.2 = ou := by rw [hg1]
      have f1 : (greedy (crossMatrix cmp2 (o :: l2t) (s :: l1t)) (o :: l2t)
          (s :: l1t) (Report.mk 0 0 other self [])).1 = r2 := by rw [hg2]
      have f2 : (greedy (crossMatrix cmp2 (o :: l2t) (s :: l1t)) (o :: l2t)
          (s :: l1t) (Report.mk 0 0 other self [])).2.1 = su2 := by rw [hg2]
      have f3 : (greedy (crossMatrix cmp2 (o :: l2t) (s :: l1t)) (o :: l2t)
          (s :: l1t) (Report.mk 0 0 other self [])).2.2 = ou2 := by rw [hg2]
      rw [e1, e2, e3, f1, f2, f3]
      rw [foldl_otherPenalty_rval, foldl_selfPenalty_rval,
        foldl_otherPenalty_rval, foldl_selfPenalty_rval]
      rw [hvr, hL1, hL2]
      exact penIter_comm _ _ _

/-- A public modifier. -/
def c4u1 : JEnt := JEnt.javaModifier 31 "public"

/-- Another public modifier with a distinct identity. -/
def c4u2 : JEnt := JEnt.javaModifier 32 "public"

/-- C4 witness: two singleton modifier collections compared in both orders
through the entity comparison give value-equal compare_parts reports. -/
theorem C4_witness :
    rval (compare_parts (fun o s => compare o s false neverSkip) c4u2 c4u1
        [c4u2] [c4u1] false neverSkip) =
      rval (compare_parts (fun s o => compare s o false neverSkip) c4u1 c4u2
        [c4u1] [c4u2] false neverSkip) :=
  C4_amended (fun s o => compare s o false neverSkip)
    (fun o s => compare o s false neverSkip) c4u1 c4u2 [c4u1] [c4u2]
    neverSkip neverSkip (by decide) (by decide)
    (fun s _ o _ => compare_first s o false neverSkip)
    (fun o _ s _ => compare_first o s false neverSkip)
    (by
      intro s hs o ho
      rw [List.mem_singleton.mp hs, List.mem_singleton.mp ho]
      decide)
    (by decide)

end BDS
